import Mathlib

/-!
The unraidcli resolver, output formatter, colour engine, refresh scheduler and
configuration.

A shallow embedding of `internal/client/unraid.go` (the client constructor and the
name/ID resolvers `FindContainerID` and `FindVMID`), of `internal/output`
(`formatter.go`, `color.go`, `watch.go`), of `internal/config/config.go` and of the
parts of `cmd` that choose the output mode, look containers up and mask the API key,
with the properties of the specification stated and proved over it. A function that
can panic returns an `Option`, `none` being the panic.

Go strings are modelled by Lean strings, that is, by the Go strings that are valid
UTF-8 (what the JSON decoder of the API client yields). `len(s)` is the number of
bytes of the UTF-8 encoding (`String.utf8ByteSize`), while the width used by the `fmt`
verbs is counted in runes (`String.length`). On such strings the byte-wise prefix test
of `strings.HasPrefix` and the prefix test on runes agree. Go errors are modelled by
their message.

What lies outside a function is an explicit argument of it: the package variable
`colorsEnabled`, the writer `os.Stdout`, the library functions `strings.ToLower` and
`strings.ToUpper`, the text `fmt.Sprintf` returns for a `float64`, the key a `range`
over a map visits first, and, for `Watch`, the results of the successive calls of the
watched function and the cases that fire at the successive `select`s.
-/

namespace Unraidcli

/-! ## Package `strings` -/

namespace strings

/-- Go `strings.HasPrefix(s, pre)`. -/
def HasPrefix (s pre : String) : Bool :=
  pre.data.isPrefixOf s.data

/-- Go `strings.TrimPrefix(s, pre)`: `s` without the leading `pre`, or `s` itself. -/
def TrimPrefix (s pre : String) : String :=
  if HasPrefix s pre then ⟨s.data.drop pre.data.length⟩ else s

/-- Go `strings.Repeat(s, count)` for a non-negative count. -/
def Repeat (s : String) : Nat → String
  | 0 => ""
  | n + 1 => s ++ Repeat s n

/-- The lower-casing of the ASCII letters, other runes kept. On a string of ASCII runes
it is Go `strings.ToLower`, which lower-cases the letters beyond ASCII as well. -/
def asciiToLower (s : String) : String :=
  ⟨s.data.map Char.toLower⟩

/-- The upper-casing of the ASCII letters, other runes kept. On a string of ASCII runes
it is Go `strings.ToUpper`, which upper-cases the letters beyond ASCII as well. -/
def asciiToUpper (s : String) : String :=
  ⟨s.data.map Char.toUpper⟩

end strings

/-! ## Package `client` -/

namespace client

/-- Go errors, by message. -/
abbrev Error := String

/-- The Go struct `Container`. -/
structure Container where
  ID : String
  Names : List String
  Image : String
  State : String
  Status : String
  Autostart : Bool
  deriving DecidableEq, Repr

/-- The Go struct `VM`. -/
structure VM where
  ID : String
  Name : String
  State : String
  deriving DecidableEq, Repr

/-- First loop of `FindContainerID`: "Try exact ID match first". -/
def containerExactID : List Container → String → Option String
  | [], _ => none
  | container :: rest, nameOrID =>
    if container.ID = nameOrID then some container.ID
    else containerExactID rest nameOrID

/-- Inner loop of the second loop of `FindContainerID`, over `container.Names`:
whether it reaches the `return`. -/
def containerNamesHit : List String → String → Bool
  | [], _ => false
  | name :: rest, nameOrID =>
    let cleanName := strings.TrimPrefix name "/"
    if cleanName = nameOrID then true
    else containerNamesHit rest nameOrID

/-- Second loop of `FindContainerID`: "Try name match". -/
def containerNameMatch : List Container → String → Option String
  | [], _ => none
  | container :: rest, nameOrID =>
    if containerNamesHit container.Names nameOrID then some container.ID
    else containerNameMatch rest nameOrID

/-- Third loop of `FindContainerID`: "Try partial ID match". -/
def containerPartialID : List Container → String → Option String
  | [], _ => none
  | container :: rest, nameOrID =>
    if strings.HasPrefix container.ID nameOrID then some container.ID
    else containerPartialID rest nameOrID

/-- `Client.FindContainerID`. The first argument is what `c.GetContainers(ctx)`
returned. -/
def FindContainerID (fetched : Except Error (List Container)) (nameOrID : String) :
    Except Error String :=
  match fetched with
  | .error err => .error err
  | .ok containers =>
    match containerExactID containers nameOrID with
    | some id => .ok id
    | none =>
      match containerNameMatch containers nameOrID with
      | some id => .ok id
      | none =>
        match containerPartialID containers nameOrID with
        | some id => .ok id
        | none => .error ("container not found: " ++ nameOrID)

/-- First loop of `FindVMID`: "Try exact ID match first". -/
def vmExactID : List VM → String → Option String
  | [], _ => none
  | vm :: rest, nameOrID =>
    if vm.ID = nameOrID then some vm.ID else vmExactID rest nameOrID

/-- Second loop of `FindVMID`: "Try name match". -/
def vmNameMatch : List VM → String → Option String
  | [], _ => none
  | vm :: rest, nameOrID =>
    if vm.Name = nameOrID then some vm.ID else vmNameMatch rest nameOrID

/-- Third loop of `FindVMID`: "Try partial ID match". -/
def vmPartialID : List VM → String → Option String
  | [], _ => none
  | vm :: rest, nameOrID =>
    if strings.HasPrefix vm.ID nameOrID then some vm.ID
    else vmPartialID rest nameOrID

/-- `Client.FindVMID`. The first argument is what `c.GetVMs(ctx)` returned. -/
def FindVMID (fetched : Except Error (List VM)) (nameOrID : String) :
    Except Error String :=
  match fetched with
  | .error err => .error err
  | .ok vms =>
    match vmExactID vms nameOrID with
    | some id => .ok id
    | none =>
      match vmNameMatch vms nameOrID with
      | some id => .ok id
      | none =>
        match vmPartialID vms nameOrID with
        | some id => .ok id
        | none => .error ("VM not found: " ++ nameOrID)

/-- The Go struct `Client`, without the handle of the GraphQL library. -/
structure Client where
  apiKey : String
  url : String
  deriving DecidableEq, Repr

/-- `New`: `none` when the slice expression `serverURL[len(serverURL)-8:]` panics, its
lower bound being negative. The slice is compared with the ASCII text `/graphql`, so
the comparison holds exactly when the runes of the URL end with that text. -/
def New (serverURL apiKey : String) : Option Client :=
  if serverURL.utf8ByteSize < 8 then none
  else
    let serverURL :=
      if ¬ ("/graphql".data.isSuffixOf serverURL.data) then serverURL ++ "/graphql"
      else serverURL
    some { apiKey := apiKey, url := serverURL }

/-- `Client.StartContainer` and `Client.StopContainer`, which differ in the mutation
they send: the identifier handed to the mutation, if one is sent, and the returned
error. `mutate id` is what `c.Mutate` returns for the identifier. -/
def resolveAndMutate (fetched : Except Error (List Container))
    (mutate : String → Option Error) (nameOrID : String) : Option String × Option Error :=
  match FindContainerID fetched nameOrID with
  | .error err => (none, some err)
  | .ok id => (some id, mutate id)

/-- `Client.StartContainer`. -/
def StartContainer (fetched : Except Error (List Container))
    (mutate : String → Option Error) (nameOrID : String) : Option String × Option Error :=
  resolveAndMutate fetched mutate nameOrID

/-- `Client.StopContainer`. -/
def StopContainer (fetched : Except Error (List Container))
    (mutate : String → Option Error) (nameOrID : String) : Option String × Option Error :=
  resolveAndMutate fetched mutate nameOrID

end client

/-! ## Package `output` -/

namespace output

/-- The constant `ColorReset`. -/
def ColorReset : String := "\x1b[0m"

/-- The constant `ColorRed`. -/
def ColorRed : String := "\x1b[31m"

/-- The constant `ColorGreen`. -/
def ColorGreen : String := "\x1b[32m"

/-- `Colorize`; the package variable `colorsEnabled` is the first argument. -/
def Colorize (colorsEnabled : Bool) (text color : String) : String :=
  if !colorsEnabled || color = "" then text
  else color ++ text ++ ColorReset

/-- `Red`, under the given colour state. -/
def Red (colorsEnabled : Bool) (text : String) : String :=
  Colorize colorsEnabled text ColorRed

/-- `Green`, under the given colour state. -/
def Green (colorsEnabled : Bool) (text : String) : String :=
  Colorize colorsEnabled text ColorGreen

/-- The constant `ColorYellow`. -/
def ColorYellow : String := "\x1b[33m"

/-- The constant `ColorBlue`. -/
def ColorBlue : String := "\x1b[34m"

/-- The constant `ColorMagenta`. -/
def ColorMagenta : String := "\x1b[35m"

/-- The constant `ColorCyan`. -/
def ColorCyan : String := "\x1b[36m"

/-- The constant `ColorWhite`. -/
def ColorWhite : String := "\x1b[37m"

/-- The constant `ColorGray`. -/
def ColorGray : String := "\x1b[90m"

/-- The constant `ColorBoldRed`. -/
def ColorBoldRed : String := "\x1b[1;31m"

/-- The constant `ColorBoldGreen`. -/
def ColorBoldGreen : String := "\x1b[1;32m"

/-- The constant `ColorBoldYellow`. -/
def ColorBoldYellow : String := "\x1b[1;33m"

/-- The constant `ColorBoldBlue`. -/
def ColorBoldBlue : String := "\x1b[1;34m"

/-- `Yellow`, under the given colour state. -/
def Yellow (colorsEnabled : Bool) (text : String) : String :=
  Colorize colorsEnabled text ColorYellow

/-- `Blue`, under the given colour state. -/
def Blue (colorsEnabled : Bool) (text : String) : String :=
  Colorize colorsEnabled text ColorBlue

/-- `Cyan`, under the given colour state. -/
def Cyan (colorsEnabled : Bool) (text : String) : String :=
  Colorize colorsEnabled text ColorCyan

/-- `Gray`, under the given colour state. -/
def Gray (colorsEnabled : Bool) (text : String) : String :=
  Colorize colorsEnabled text ColorGray

/-- `BoldRed`, under the given colour state. -/
def BoldRed (colorsEnabled : Bool) (text : String) : String :=
  Colorize colorsEnabled text ColorBoldRed

/-- `BoldGreen`, under the given colour state. -/
def BoldGreen (colorsEnabled : Bool) (text : String) : String :=
  Colorize colorsEnabled text ColorBoldGreen

/-- `BoldYellow`, under the given colour state. -/
def BoldYellow (colorsEnabled : Bool) (text : String) : String :=
  Colorize colorsEnabled text ColorBoldYellow

/-- `ColorizeState`. The library function `strings.ToUpper` is the first argument, the
package variable `colorsEnabled` the second. -/
def ColorizeState (toUpper : String → String) (colorsEnabled : Bool) (state : String) :
    String :=
  let stateUpper := toUpper state
  if stateUpper ∈ ["STARTED", "RUNNING", "UP", "ONLINE"] then
    Green colorsEnabled stateUpper
  else if stateUpper ∈ ["STOPPED", "DOWN", "OFFLINE", "EXITED"] then
    Red colorsEnabled stateUpper
  else if stateUpper ∈ ["PAUSED", "STOPPING", "STARTING"] then
    Yellow colorsEnabled stateUpper
  else if stateUpper ∈ ["DISK_OK", "GOOD", "HEALTHY"] then
    Green colorsEnabled stateUpper
  else if stateUpper ∈ ["DISK_DSBL", "DISK_INVALID", "DISK_WRONG", "ERROR", "FAILED"] then
    Red colorsEnabled stateUpper
  else if stateUpper ∈ ["WARNING", "DISK_NP"] then
    Yellow colorsEnabled stateUpper
  else
    stateUpper

/-- `FormatState`. -/
def FormatState (toUpper : String → String) (colorsEnabled : Bool) (state : String) :
    String :=
  ColorizeState toUpper colorsEnabled state

/-- A Go `float64`, as far as a comparison with a finite constant sees it: not a
number, an infinity, or a finite value, which is a rational number. -/
inductive Float64 where
  | nan
  | negInf
  | finite (q : ℚ)
  | posInf

/-- The Go comparison `x >= c` of a `float64` with the finite constant `c`. -/
def Float64.ge (x : Float64) (c : ℚ) : Bool :=
  match x with
  | Float64.nan => false
  | Float64.negInf => false
  | Float64.finite q => decide (c ≤ q)
  | Float64.posInf => true

/-- The Go comparison `x < c` of a `float64` with the finite constant `c`. -/
def Float64.lt (x : Float64) (c : ℚ) : Bool :=
  match x with
  | Float64.nan => false
  | Float64.negInf => true
  | Float64.finite q => decide (q < c)
  | Float64.posInf => false

/-- `ColorizePercentage`. The second argument is the `text` that
`fmt.Sprintf("%.1f%%", percent)` returned. -/
def ColorizePercentage (colorsEnabled : Bool) (text : String) (percent : Float64)
    (reverse : Bool) : String :=
  if !reverse then
    if percent.ge 90 then Red colorsEnabled text
    else if percent.ge 75 then Yellow colorsEnabled text
    else Green colorsEnabled text
  else
    if percent.ge 75 then Green colorsEnabled text
    else if percent.ge 50 then Yellow colorsEnabled text
    else Red colorsEnabled text

/-- `ColorizeTemperature`. The second argument is the `text` that
`fmt.Sprintf("%.1f°C", temp)` returned. -/
def ColorizeTemperature (colorsEnabled : Bool) (text : String) (temp : Float64) : String :=
  if temp.ge 60 then Red colorsEnabled text
  else if temp.ge 50 then Yellow colorsEnabled text
  else if temp.ge 40 then Cyan colorsEnabled text
  else Blue colorsEnabled text

/-- The Go type `Format`, a string. -/
abbrev Format := String

/-- The constant `FormatTable`. -/
def FormatTable : Format := "table"

/-- The constant `FormatJSON`. -/
def FormatJSON : Format := "json"

/-- The constant `FormatYAML`. -/
def FormatYAML : Format := "yaml"

/-- An `io.Writer`, by what its `Write` does: it takes every write, or it fails every
write with the given error and takes nothing. `os.Stdout` is of the first kind while
the terminal, pipe or file behind it takes the output. -/
inductive Writer where
  | accepting
  | failing (err : client.Error)
  deriving DecidableEq, Repr

/-- The Go struct `Formatter`. What an operation gets written to `f.writer` is returned
by the operation, in order. -/
structure Formatter where
  format : Format
  writer : Writer
  deriving DecidableEq, Repr

/-- A Go `map[string]string`, as the list of its entries; no key occurs twice. -/
abbrev StringMap := List (String × String)

/-- The Go assignment `m[k] = v`. -/
def mapSet : StringMap → String → String → StringMap
  | [], k, v => [(k, v)]
  | (k', v') :: rest, k, v =>
    if k' = k then (k, v) :: rest else (k', v') :: mapSet rest k v

/-- The values of type `interface{}` found in the key-value payloads of the
commands. -/
inductive Value where
  | str (s : String)
  | int (n : Int)
  | bool (b : Bool)
  deriving DecidableEq, Repr

/-- The `fmt` verb `%v` on a value. -/
def Value.format : Value → String
  | Value.str s => s
  | Value.int n => toString n
  | Value.bool b => if b then "true" else "false"

/-- The values handed to `Formatter.Print` by the operations modelled here. -/
inductive Data where
  /-- A `[]map[string]string`. -/
  | maps (data : List StringMap)
  /-- A `map[string]string`. -/
  | map (m : StringMap)
  /-- A `map[string]interface{}`, its entries in the order a `range` visits them. -/
  | keyValues (m : List (String × Value))
  /-- A `[]client.Container`. -/
  | containers (cs : List client.Container)
  deriving DecidableEq, Repr

/-- One write to `f.writer`: text produced by `fmt`, or a value encoded by the JSON
encoder (indent of two spaces) or by the YAML encoder. -/
inductive Written where
  | text (s : String)
  | json (data : Data)
  | yaml (data : Data)
  deriving DecidableEq, Repr

/-- `New`. The library function `strings.ToLower` is the first argument, the writer
`os.Stdout` the second. -/
def New (toLower : String → String) (stdout : Writer) (format : String) : Formatter :=
  let f : Format := toLower format
  let f : Format := if f ≠ FormatTable ∧ f ≠ FormatJSON ∧ f ≠ FormatYAML then FormatTable else f
  { format := f, writer := stdout }

/-- One write to `f.writer`: what gets written, and the error of the write. -/
def Formatter.write (f : Formatter) (w : Written) : List Written × Option client.Error :=
  match f.writer with
  | Writer.accepting => ([w], none)
  | Writer.failing err => ([], some err)

/-- `Formatter.printJSON`: the encoder writes the encoded value to `f.writer` and
returns the error of that write. -/
def Formatter.printJSON (f : Formatter) (data : Data) : List Written × Option client.Error :=
  f.write (Written.json data)

/-- `Formatter.printYAML`: the encoder writes the encoded value to `f.writer`; a failed
write is reported by the encoder as a YAML write error. -/
def Formatter.printYAML (f : Formatter) (data : Data) : List Written × Option client.Error :=
  match f.write (Written.yaml data) with
  | (out, none) => (out, none)
  | (out, some err) => (out, some ("yaml: write error: " ++ err))

/-- `Formatter.Print`: what is written, and the returned error. -/
def Formatter.Print (f : Formatter) (data : Data) : List Written × Option client.Error :=
  if f.format = FormatJSON then f.printJSON data
  else if f.format = FormatYAML then f.printYAML data
  else ([], some "table format requires using PrintTable method")

/-- The inner loop of the structured branch of `PrintTable`:
`for j, header := range headers`, from index `j` on. -/
def fillRowMap (row : List String) : StringMap → Nat → List String → StringMap
  | rowMap, _, [] => rowMap
  | rowMap, j, header :: rest =>
    if j < row.length then fillRowMap row (mapSet rowMap header (row.getD j "")) (j + 1) rest
    else fillRowMap row rowMap (j + 1) rest

/-- The `rowMap` built for one row in the structured branch of `PrintTable`. -/
def rowMapOf (headers row : List String) : StringMap :=
  fillRowMap row [] 0 headers

/-- The `fmt` verb `%-*s`: `s`, then blanks up to `width` runes. This is what `fmt`
does for a width of at most 1000000, the largest it takes from an argument; a table
with a header or a cell longer than that is outside the model. -/
def padRight (width : Nat) (s : String) : String :=
  s ++ strings.Repeat " " (width - s.length)

/-- The inner loop of "Calculate column widths": `for i, cell := range row`, from
index `i` on. -/
def widenRow : List Nat → Nat → List String → List Nat
  | colWidths, _, [] => colWidths
  | colWidths, i, cell :: rest =>
    if i < colWidths.length ∧ cell.utf8ByteSize > colWidths.getD i 0 then
      widenRow (colWidths.set i cell.utf8ByteSize) (i + 1) rest
    else widenRow colWidths (i + 1) rest

/-- The outer loop of "Calculate column widths": `for _, row := range rows`. -/
def widenRows : List Nat → List (List String) → List Nat
  | colWidths, [] => colWidths
  | colWidths, row :: rest => widenRows (widenRow colWidths 0 row) rest

/-- The slice `colWidths` once "Calculate column widths" is done. -/
def calcColWidths (headers : List String) (rows : List (List String)) : List Nat :=
  widenRows (headers.map String.utf8ByteSize) rows

/-- The loop of "Print headers", from index `i` on, without the final newline. -/
def printHeaders (colWidths : List Nat) : Nat → List String → String
  | _, [] => ""
  | i, header :: rest =>
    (if i > 0 then "  " else "") ++ padRight (colWidths.getD i 0) header
      ++ printHeaders colWidths (i + 1) rest

/-- The loop of "Print separator line", from index `i` on; the second argument is the
number of headers still to visit. -/
def printSeparator (colWidths : List Nat) : Nat → Nat → String
  | _, 0 => ""
  | i, n + 1 =>
    (if i > 0 then "  " else "") ++ strings.Repeat "-" (colWidths.getD i 0)
      ++ printSeparator colWidths (i + 1) n

/-- The inner loop of "Print rows": `for i, cell := range row`, from index `i` on,
without the final newline. -/
def printCells (colWidths : List Nat) : Nat → List String → String
  | _, [] => ""
  | i, cell :: rest =>
    (if i > 0 then "  " else "")
      ++ (if i < colWidths.length then padRight (colWidths.getD i 0) cell else cell)
      ++ printCells colWidths (i + 1) rest

/-- The outer loop of "Print rows". -/
def printRows (colWidths : List Nat) : List (List String) → String
  | [] => ""
  | row :: rest => printCells colWidths 0 row ++ "\n" ++ printRows colWidths rest

/-- The text written by the table branch of `PrintTable`. -/
def renderTable (headers : List String) (rows : List (List String)) : String :=
  let colWidths := calcColWidths headers rows
  printHeaders colWidths 0 headers ++ "\n"
    ++ (printSeparator colWidths 0 headers.length ++ "\n")
    ++ printRows colWidths rows

/-- `Formatter.PrintTable`: what is written. The function returns nothing; the error of
`f.Print` and the errors of the `fmt` calls are dropped. -/
def Formatter.PrintTable (f : Formatter) (headers : List String)
    (rows : List (List String)) : List Written :=
  if f.format ≠ FormatTable then
    let data := rows.map (rowMapOf headers)
    (f.Print (Data.maps data)).1
  else
    (f.write (Written.text (renderTable headers rows))).1

/-- The loop of `PrintKeyValue` in table mode: one `fmt.Fprintf` with the format
`"%s:\t%v\n"` per entry, the errors of the calls dropped. -/
def printKeyValueEntries (f : Formatter) : List (String × Value) → List Written
  | [] => []
  | (key, value) :: rest =>
    (f.write (Written.text (key ++ ":\t" ++ value.format ++ "\n"))).1
      ++ printKeyValueEntries f rest

/-- `Formatter.PrintKeyValue`: what is written, and the returned error. The entries of
`data` come in the order the `range` over the map visits them. -/
def Formatter.PrintKeyValue (f : Formatter) (data : List (String × Value)) :
    List Written × Option client.Error :=
  if f.format = FormatTable then (printKeyValueEntries f data, none)
  else f.Print (Data.keyValues data)

/-- `Formatter.PrintSuccess`: what is written. The function returns nothing; the error
of `f.Print` is dropped. -/
def Formatter.PrintSuccess (f : Formatter) (message : String) : List Written :=
  if f.format = FormatTable then (f.write (Written.text ("✓ " ++ message ++ "\n"))).1
  else (f.Print (Data.map [("status", "success"), ("message", message)])).1

/-- `Formatter.PrintError`: what is written. The function returns nothing; the error of
`f.Print` is dropped. -/
def Formatter.PrintError (f : Formatter) (message : String) : List Written :=
  if f.format = FormatTable then (f.write (Written.text ("✗ " ++ message ++ "\n"))).1
  else (f.Print (Data.map [("status", "error"), ("message", message)])).1

/-- The case of the `select` of `Watch` that fires: the context is done, or the ticker
ticks. -/
inductive SelectCase where
  | done
  | tick
  deriving DecidableEq, Repr

/-- What `Watch` does, in order: a call of `clearScreen`, a call of `fn`, or entering
the `select` to wait. -/
inductive WatchAction where
  | clearScreen
  | call
  | wait
  deriving DecidableEq, Repr

/-- How a run of `Watch` ends: it returns, `time.NewTicker` panics, or it is still
waiting in the `select` when the known cases are used up. -/
inductive WatchEnd where
  | returned (err : Option client.Error)
  | panicked (msg : String)
  | waiting
  deriving DecidableEq, Repr

/-- The `for` loop of `Watch`. `fn i` is what call number `i` of the watched function
returns, `calls` the number of calls made so far, and the list gives the case that
fires each time the `select` is entered. -/
def watchLoop (fn : Nat → Option client.Error) :
    Nat → List SelectCase → List WatchAction × WatchEnd
  | _, [] => ([WatchAction.wait], WatchEnd.waiting)
  | _, SelectCase.done :: _ => ([WatchAction.wait], WatchEnd.returned none)
  | calls, SelectCase.tick :: rest =>
    match fn calls with
    | some err =>
      ([WatchAction.wait, WatchAction.clearScreen, WatchAction.call],
        WatchEnd.returned (some err))
    | none =>
      let r := watchLoop fn (calls + 1) rest
      (WatchAction.wait :: WatchAction.clearScreen :: WatchAction.call :: r.1, r.2)

/-- `Watch`: what it does, and how it ends. The context and the ticker are given by
the cases that fire at the successive `select`s, `interval` is the duration in
nanoseconds, and `fn i` is what call number `i` of the watched function returns. -/
def Watch (fires : List SelectCase) (interval : Int) (fn : Nat → Option client.Error) :
    List WatchAction × WatchEnd :=
  match fn 0 with
  | some err => ([WatchAction.clearScreen, WatchAction.call], WatchEnd.returned (some err))
  | none =>
    if interval ≤ 0 then
      ([WatchAction.clearScreen, WatchAction.call],
        WatchEnd.panicked "non-positive interval for NewTicker")
    else
      let r := watchLoop fn 1 fires
      (WatchAction.clearScreen :: WatchAction.call :: r.1, r.2)

/-- The constant `os.ModeCharDevice` of the library, bit 21 of a file mode. -/
def ModeCharDevice : Nat := 2 ^ 21

/-- The package initialiser `init` of `color.go`: the value of `colorsEnabled` it
leaves, `none` when it panics. `noColor` is `os.Getenv("NO_COLOR")`, and `stdoutStat`
the mode of the file information `os.Stdout.Stat()` returns, `none` when that call
fails and returns no file information, whose `Mode()` then is a nil dereference. -/
def initColors (noColor : String) (stdoutStat : Option Nat) : Option Bool :=
  let colorsEnabled := true
  let colorsEnabled := if noColor ≠ "" then false else colorsEnabled
  match stdoutStat with
  | none => none
  | some mode =>
    some (if mode &&& ModeCharDevice = 0 then false else colorsEnabled)

/-- The value of an `int64` computation: the integer wrapped into 64 bits. -/
def wrapInt64 (x : Int) : Int :=
  (x + 2 ^ 63) % 2 ^ 64 - 2 ^ 63

/-- The `for` loop of `FormatBytes`, entered with the current `n`, `div` and `exp`:
the final `div` and `exp`. -/
def formatBytesLoop (n div : Int) (exp : Nat) : Int × Nat :=
  if 1024 ≤ n then formatBytesLoop (n.tdiv 1024) (wrapInt64 (div * 1024)) (exp + 1)
  else (div, exp)
termination_by n.toNat
decreasing_by
  have h0 : (0 : Int) ≤ n := by omega
  rw [Int.tdiv_eq_ediv h0 (by norm_num)]
  omega

/-- `FormatBytes` on an `int64` value: `none` when indexing `"KMGTPE"` panics. The
first argument gives the text of `fmt.Sprintf("%.1f", float64(bytes)/float64(div))`. -/
def FormatBytes (sprintf : Int → Int → String) (bytes : Int) : Option String :=
  if bytes < 1024 then some (toString bytes ++ " B")
  else
    let r := formatBytesLoop (bytes.tdiv 1024) 1024 0
    match "KMGTPE".data.get? r.2 with
    | none => none
    | some unitLetter =>
      some (sprintf bytes r.1 ++ " " ++ String.singleton unitLetter ++ "iB")

end output

/-! ## Package `config` -/

namespace config

/-- The Go struct `ServerConfig`. -/
structure ServerConfig where
  URL : String
  APIKey : String
  deriving DecidableEq, Repr

/-- A Go `map[string]ServerConfig`, as the list of its entries; a nil map is the empty
list. -/
abbrev ServerMap := List (String × ServerConfig)

/-- The Go lookup `m[name]`, `none` when the key is absent. -/
def serversGet : ServerMap → String → Option ServerConfig
  | [], _ => none
  | (k, v) :: rest, name => if k = name then some v else serversGet rest name

/-- The Go assignment `m[name] = server`. -/
def serversSet : ServerMap → String → ServerConfig → ServerMap
  | [], name, server => [(name, server)]
  | (k, v) :: rest, name, server =>
    if k = name then (name, server) :: rest else (k, v) :: serversSet rest name server

/-- The Go call `delete(m, name)`. -/
def serversDelete (m : ServerMap) (name : String) : ServerMap :=
  m.filter (fun e => e.1 ≠ name)

/-- The Go struct `Config`. -/
structure Config where
  DefaultServer : String
  OutputFormat : String
  Servers : ServerMap
  deriving DecidableEq, Repr

/-- `Config.GetServer`. -/
def Config.GetServer (c : Config) (serverName : String) :
    Except client.Error ServerConfig :=
  let serverName := if serverName = "" then c.DefaultServer else serverName
  if serverName = "" then
    .error "no server specified and no default server configured"
  else
    match serversGet c.Servers serverName with
    | none => .error ("server '" ++ serverName ++ "' not found in configuration")
    | some server => .ok server

/-- `Config.SetServer`: the configuration it leaves. -/
def Config.SetServer (c : Config) (name url apiKey : String) : Config :=
  let servers := serversSet c.Servers name { URL := url, APIKey := apiKey }
  { c with
    Servers := servers
    DefaultServer := if c.DefaultServer = "" then name else c.DefaultServer }

/-- The key the loop `for serverName := range c.Servers` visits first, the order of
the visit being arbitrary: the key at position `first`, counted cyclically. -/
def firstVisited (m : ServerMap) (first : Nat) : Option String :=
  (m.get? (first % m.length)).map Prod.fst

/-- `Config.RemoveServer`: the configuration it leaves and the returned error. `first`
decides which key the `range` over the remaining servers visits first. -/
def Config.RemoveServer (c : Config) (name : String) (first : Nat) :
    Config × Option client.Error :=
  match serversGet c.Servers name with
  | none => (c, some ("server '" ++ name ++ "' not found"))
  | some _ =>
    let servers := serversDelete c.Servers name
    if c.DefaultServer = name then
      match firstVisited servers first with
      | none => ({ c with Servers := servers, DefaultServer := "" }, none)
      | some serverName => ({ c with Servers := servers, DefaultServer := serverName }, none)
    else
      ({ c with Servers := servers }, none)

end config

/-! ## Package `cmd` -/

/-- The headers of `docker ls`. -/
def dockerLsHeaders : List String :=
  ["Name", "Image", "State", "Status", "Autostart"]

/-- The headers of `docker ps`. -/
def dockerPsHeaders : List String :=
  ["Name", "Image", "Status", "Autostart"]

namespace cmd

/-- The formatter set up by `rootCmd.PersistentPreRunE`: `outputFormat` is the value of
the `--output` flag, empty when the flag is absent, and `cfgOutputFormat` the
`OutputFormat` of the loaded configuration. -/
def resolveFormatter (toLower : String → String) (stdout : output.Writer)
    (outputFormat cfgOutputFormat : String) : output.Formatter :=
  let format := if outputFormat = "" then cfgOutputFormat else outputFormat
  output.New toLower stdout format

/-- `fmt.Println(s)`: what gets written to `os.Stdout`. -/
def println (stdout : output.Writer) (s : String) : List output.Written :=
  match stdout with
  | output.Writer.accepting => [output.Written.text (s ++ "\n")]
  | output.Writer.failing _ => []

/-- The `RunE` of `arrayStartCmd`: what is written, and the returned error.
`startArray` is what `apiClient.StartArray(ctx)` returned. -/
def arrayStartRunE (stdout : output.Writer) (outputFormat : String)
    (formatter : output.Formatter) (startArray : Option client.Error) :
    List output.Written × Option client.Error :=
  let started := println stdout "Starting array..."
  match startArray with
  | some err => (started, some ("failed to start array: " ++ err))
  | none =>
    if outputFormat = "" ∨ outputFormat = "table" then
      (started ++ println stdout "✓ Array started successfully", none)
    else
      (started ++ (formatter.Print
        (output.Data.map [("status", "success"), ("message", "Array started successfully")])).1,
        none)

/-- The display name `docker ls` computes for a container, `container.Names[0]`
without a leading `/`; `none` when indexing the empty `Names` panics. -/
def displayName (container : client.Container) : Option String :=
  match container.Names with
  | [] => none
  | name :: _ =>
    some (if strings.HasPrefix name "/" then ⟨name.data.drop 1⟩ else name)

/-- The loop of `dockerLsCmd` that builds `rows`; `none` when it panics. -/
def dockerLsRows (toUpper : String → String) (colorsEnabled : Bool) :
    List client.Container → Option (List (List String))
  | [] => some []
  | container :: rest =>
    match displayName container with
    | none => none
    | some name =>
      let autostart := if container.Autostart then "✓" else ""
      match dockerLsRows toUpper colorsEnabled rest with
      | none => none
      | some rows =>
        some ([name, container.Image,
          output.FormatState toUpper colorsEnabled container.State,
          container.Status, autostart] :: rows)

/-- The output step of `listFunc` in `dockerLsCmd`, outside watch mode and for a
listing that is not empty: what is written, `none` when building the rows panics. -/
def dockerLsOutput (toUpper : String → String) (colorsEnabled : Bool)
    (outputFormat : String) (formatter : output.Formatter)
    (containers : List client.Container) : Option (List output.Written) :=
  if outputFormat = "" ∨ outputFormat = "table" then
    match dockerLsRows toUpper colorsEnabled containers with
    | none => none
    | some rows => some (formatter.PrintTable dockerLsHeaders rows)
  else
    some (formatter.Print (output.Data.containers containers)).1

/-- The loop of `dockerPsCmd` that builds `runningContainers`: the containers whose
state, in lower case, is `running`, in listing order. -/
def runningContainers (toLower : String → String) :
    List client.Container → List client.Container
  | [] => []
  | container :: rest =>
    if toLower container.State = "running" then
      container :: runningContainers toLower rest
    else runningContainers toLower rest

/-- The loop of `dockerPsCmd` that builds `rows`; it ranges over `runningContainers`,
not over the listing. The result is `none` when it panics. -/
def dockerPsRows : List client.Container → Option (List (List String))
  | [] => some []
  | container :: rest =>
    match displayName container with
    | none => none
    | some name =>
      let autostart := if container.Autostart then "✓" else ""
      match dockerPsRows rest with
      | none => none
      | some rows => some ([name, container.Image, container.Status, autostart] :: rows)

/-- The `RunE` of `dockerPsCmd` from the listing `containers` on: the running
containers are kept, a listing without one is answered by a message, and the rows are
built in table mode only. The result is what is written, `none` when building the rows
panics. -/
def dockerPsOutput (toLower : String → String) (stdout : output.Writer)
    (outputFormat : String) (formatter : output.Formatter)
    (containers : List client.Container) : Option (List output.Written) :=
  let running := runningContainers toLower containers
  if running.length = 0 then
    some (println stdout "No running containers found.")
  else if outputFormat = "" ∨ outputFormat = "table" then
    match dockerPsRows running with
    | none => none
    | some rows => some (formatter.PrintTable dockerPsHeaders rows)
  else
    some (formatter.Print (output.Data.containers running)).1

/-- The lookup loop of `dockerLogsCmd`: `none` when it panics, otherwise the container
`found` points to, if any. -/
def dockerLogsLookup : List client.Container → String → Option (Option client.Container)
  | [], _ => some none
  | container :: rest, containerName =>
    match displayName container with
    | none => none
    | some name =>
      if name = containerName ∨ container.ID = containerName
          ∨ strings.HasPrefix container.ID containerName then
        some (some container)
      else dockerLogsLookup rest containerName

/-- The inner loop of the filter of `dockerStatsCmd`, over `args`: whether it reaches
the `append`. -/
def statsArgsHit (name : String) (container : client.Container) : List String → Bool
  | [] => false
  | arg :: rest =>
    if name = arg ∨ container.ID = arg ∨ strings.HasPrefix container.ID arg then true
    else statsArgsHit name container rest

/-- The loop of `dockerStatsCmd` that builds `filtered`, which runs when `args` is not
empty: the containers some argument matches, `none` when the loop panics. -/
def dockerStatsFilterLoop (args : List String) :
    List client.Container → Option (List client.Container)
  | [] => some []
  | container :: rest =>
    match displayName container with
    | none => none
    | some name =>
      match dockerStatsFilterLoop args rest with
      | none => none
      | some filtered =>
        some (if statsArgsHit name container args then container :: filtered else filtered)

/-- The step "Filter by specific containers if provided" of `dockerStatsCmd`: what
`containers` is after it, `none` when the loop panics. Without arguments the loop does
not run and the listing is left as it is. -/
def dockerStatsFilter (args : List String) (containers : List client.Container) :
    Option (List client.Container) :=
  if args.length > 0 then dockerStatsFilterLoop args containers else some containers

/-- The text `"***"`, as bytes. -/
def stars : List UInt8 := [42, 42, 42]

/-- The computation of `maskedKey` in `configShowCmd`, on the bytes of the API key:
`none` when the slice expression `server.APIKey[len(server.APIKey)-4:]` panics, its
lower bound being negative. -/
def maskedKey (apiKey : List UInt8) : Option (List UInt8) :=
  if apiKey.length < 4 then none
  else
    let maskedKey := stars ++ apiKey.drop (apiKey.length - 4)
    some (if apiKey.length < 8 then stars else maskedKey)

end cmd

/-! ## Vocabulary of the specification -/

/-- In list order, `c` is the first element of `l` with property `P`. -/
def FirstWith {α : Type} (P : α → Prop) (l : List α) (c : α) : Prop :=
  ∃ pre post, l = pre ++ c :: post ∧ P c ∧ ∀ d ∈ pre, ¬ P d

/-- The token is a prefix of the identifier. -/
def StartsWith (id token : String) : Prop :=
  ∃ rest : String, id = token ++ rest

/-- Some name of the collection equals the token once one leading `/` is stripped. -/
def HasName (names : List String) (token : String) : Prop :=
  ∃ n ∈ names, strings.TrimPrefix n "/" = token

/-- The canonical display name of a container: its first name, one leading `/`
stripped. -/
def canonicalName (c : client.Container) : Option String :=
  (c.Names.head?).map (fun n => strings.TrimPrefix n "/")

/-- The strings joined by the two-space gutter. -/
def gutterJoin : List String → String
  | [] => ""
  | [a] => a
  | a :: b :: rest => a ++ "  " ++ gutterJoin (b :: rest)

/-- The characters of a text that are visible on a terminal: an escape sequence, from
the escape character to its final `m`, is left out. The flag tells whether the scan is
inside an escape sequence. -/
def visibleChars : Bool → List Char → List Char
  | _, [] => []
  | true, c :: cs => visibleChars (c != 'm') cs
  | false, c :: cs =>
    if c = '\x1b' then visibleChars true cs else c :: visibleChars false cs

/-- The text as seen on a terminal, colour escape sequences left out. -/
def visible (s : String) : String :=
  ⟨visibleChars false s.data⟩

/-- The visible width of a text: its length in runes, colour escape sequences not
counted. -/
def visibleLength (s : String) : Nat :=
  (visibleChars false s.data).length

/-- No newline occurs in the text. -/
def NoNewline (s : String) : Prop :=
  '\n' ∉ s.data

/-- The header line of a table whose columns have the widths `w`: the headers, each
left-justified and padded to the width of its column, joined by the gutter. -/
def headerLine (w : List Nat) (headers : List String) : String :=
  gutterJoin (List.zipWith output.padRight w headers)

/-- The separator line of a table whose columns have the widths `w`: one run of
dashes per column, joined by the gutter. -/
def separatorLine (w : List Nat) : String :=
  gutterJoin (w.map (strings.Repeat "-"))

/-- The line of a data row in a table whose columns have the widths `w`: the cells in
column order, each left-justified and padded to the width of its column, cells beyond
the last column verbatim, joined by the gutter. -/
def rowLine (w : List Nat) (row : List String) : String :=
  gutterJoin (List.zipWith output.padRight w row ++ row.drop w.length)

/-- Whether a text has a newline can be computed. -/
instance instDecidableNoNewline (s : String) : Decidable (NoNewline s) := by
  unfold NoNewline
  infer_instance

/-- The visible offset at which piece `i` starts in the gutter-joined `pieces`: the
visible widths of the pieces before it, and one gutter after each of them. -/
def columnOffset (pieces : List String) (i : Nat) : Nat :=
  ((pieces.take i).map (fun p => visibleLength p + 2)).sum

/-- The row `docker ls` builds, with colours enabled, for a running container `plex`
that starts automatically: the state cell is what `FormatState` returns, the state in
upper case wrapped by `Green`. -/
def dockerLsRunningRow : List String :=
  ["plex", "linuxserver/plex", output.Green true "RUNNING", "Up 3 days", "✓"]

/-- The number of calls of the watched function among the actions of a run. -/
def invocations (actions : List output.WatchAction) : Nat :=
  actions.count output.WatchAction.call

/-- A running container `plex`, as `docker ls` receives it. -/
def plexContainer : client.Container :=
  { ID := "abc123", Names := ["/plex"], Image := "linuxserver/plex", State := "RUNNING",
    Status := "Up 3 days", Autostart := true }

/-- The error of a write to a device that is full. -/
def noSpace : client.Error :=
  "write /dev/stdout: no space left on device"

/-- The text `%.1f` gives for the exact quotient of two positive integers, rounded to
tenths with ties to the even digit. It is the text of
`fmt.Sprintf("%.1f", float64(num)/float64(den))` when the two conversions and the
division are exact, as they are for `num` below `2 ^ 53` and `den` a power of two. -/
def exactTenths (num den : Int) : String :=
  let q := (10 * num) / den
  let r := (10 * num) % den
  let t := if 2 * r > den ∨ (2 * r = den ∧ q % 2 = 1) then q + 1 else q
  toString (t / 10) ++ "." ++ toString (t % 10)

/-- The bytes of a text, its UTF-8 encoding. -/
def utf8Bytes (s : String) : List UInt8 :=
  s.data.flatMap String.utf8EncodeChar

/-- The token matches the container in the way the resolver looks for: one of its names
equals the token once a leading `/` is stripped, or its ID starts with the token. -/
def Matches (token : String) (c : client.Container) : Prop :=
  HasName c.Names token ∨ StartsWith c.ID token

/-- The token matches the container in the way the inline lookups of `docker logs` and
`docker stats` look for: its canonical name equals the token, or its ID starts with
the token. -/
def MatchesInline (token : String) (c : client.Container) : Prop :=
  canonicalName c = some token ∨ StartsWith c.ID token

/-- The default-server invariant, with the fact that keeps it: no key is empty; the
default is empty exactly when there is no server; and a default that is not empty is a
key of the servers. -/
def DefaultInvariant (c : config.Config) : Prop :=
  (∀ e ∈ c.Servers, e.1 ≠ "")
    ∧ (c.DefaultServer = "" ↔ c.Servers = [])
    ∧ (c.DefaultServer ≠ "" → config.serversGet c.Servers c.DefaultServer ≠ none)

/-- The test the inline lookups make on a container, as a Boolean. -/
def inlineTest (token : String) (c : client.Container) : Bool :=
  decide (canonicalName c = some token) || decide (c.ID = token)
    || strings.HasPrefix c.ID token

/-- The configuration with no server and no default. -/
def emptyConfig (outputFormat : String) : config.Config :=
  { DefaultServer := "", OutputFormat := outputFormat, Servers := [] }

/-- The configurations reached from an empty one by calls of `SetServer` and
`RemoveServer` with names that are not empty. -/
inductive Reachable : config.Config → Prop where
  | empty (outputFormat : String) : Reachable (emptyConfig outputFormat)
  | set (c : config.Config) (name url apiKey : String) :
      Reachable c → name ≠ "" → Reachable (c.SetServer name url apiKey)
  | remove (c : config.Config) (name : String) (first : Nat) :
      Reachable c → name ≠ "" → Reachable (c.RemoveServer name first).1

/-- A running container that has no name. -/
def namelessContainer : client.Container :=
  { ID := "def456", Names := [], Image := "busybox", State := "running",
    Status := "Up 2 hours", Autostart := false }

/-- A listing in which the ID of the first container, `web`, starts with the name of the
second, `db`. -/
def webDbListing : List client.Container :=
  [{ ID := "db5f01", Names := ["/web"], Image := "nginx", State := "running",
     Status := "Up 3 days", Autostart := true },
   { ID := "77aa02", Names := ["/db"], Image := "postgres", State := "running",
     Status := "Up 3 days", Autostart := true }]

/-- A container with the given identifier and names, the other fields empty. -/
def containerOf (id : String) (names : List String) : client.Container :=
  { ID := id, Names := names, Image := "", State := "", Status := "", Autostart := false }

/-- A virtual machine with the given identifier and name. -/
def vmOf (id name : String) : client.VM :=
  { ID := id, Name := name, State := "" }

end Unraidcli

/-! ## Lemmas on the resolver loops -/

namespace Unraidcli
open client output

theorem hasPrefix_iff_startsWith (s pre : String) :
    strings.HasPrefix s pre = true ↔ StartsWith s pre := by
  unfold strings.HasPrefix StartsWith
  rw [ List.isPrefixOf_iff_prefix]
  constructor
  · rintro ⟨t, ht⟩
    exact ⟨⟨t⟩, String.ext (by simp [String.data_append, ht])⟩
  · rintro ⟨rest, rfl⟩
    exact ⟨rest.data, by simp [String.data_append]⟩

theorem containerNamesHit_iff (names : List String) (token : String) :
    containerNamesHit names token = true ↔ HasName names token := by
  induction names with
  | nil => simp [containerNamesHit, HasName]
  | cons n rest ih =>
    unfold HasName at ih ⊢
    by_cases h : strings.TrimPrefix n "/" = token
    · simp [containerNamesHit, h]
    · simp [containerNamesHit, h, ih]

theorem find_of_firstWith {α : Type} {P : α → Prop} {p : α → Bool}
    (hp : ∀ x, p x = true ↔ P x) {l : List α} {c : α} (h : FirstWith P l c) :
    l.find? p = some c := by
  obtain ⟨pre, post, rfl, hc, hpre⟩ := h
  induction pre with
  | nil => simp [List.find?, (hp c).2 hc]
  | cons d pre ih =>
    have hd : p d = false := by
      have := hpre d (by simp)
      rw [← hp] at this
      simpa using this
    simp only [List.cons_append, List.find?, hd]
    exact ih (fun x hx => hpre x (by simp [hx]))

theorem find_none_iff {α : Type} {P : α → Prop} {p : α → Bool}
    (hp : ∀ x, p x = true ↔ P x) (l : List α) :
    l.find? p = none ↔ ∀ x ∈ l, ¬ P x := by
  rw [List.find?_eq_none]
  constructor
  · intro h x hx hP
    exact h x hx ((hp x).2 hP)
  · intro h x hx hpx
    exact h x hx ((hp x).1 hpx)

theorem containerExactID_eq (cs : List Container) (t : String) :
    containerExactID cs t = (cs.find? (fun c => decide (c.ID = t))).map (fun c => c.ID) := by
  induction cs with
  | nil => rfl
  | cons c rest ih =>
    by_cases h : c.ID = t <;> simp [containerExactID, List.find?, h, ih]

theorem containerNameMatch_eq (cs : List Container) (t : String) :
    containerNameMatch cs t
      = (cs.find? (fun c => containerNamesHit c.Names t)).map (fun c => c.ID) := by
  induction cs with
  | nil => rfl
  | cons c rest ih =>
    by_cases h : containerNamesHit c.Names t = true <;>
      simp [containerNameMatch, List.find?, h, ih]

theorem containerPartialID_eq (cs : List Container) (t : String) :
    containerPartialID cs t
      = (cs.find? (fun c => strings.HasPrefix c.ID t)).map (fun c => c.ID) := by
  induction cs with
  | nil => rfl
  | cons c rest ih =>
    by_cases h : strings.HasPrefix c.ID t = true <;>
      simp [containerPartialID, List.find?, h, ih]

theorem vmExactID_eq (vms : List VM) (t : String) :
    vmExactID vms t = (vms.find? (fun v => decide (v.ID = t))).map (fun v => v.ID) := by
  induction vms with
  | nil => rfl
  | cons v rest ih =>
    by_cases h : v.ID = t <;> simp [vmExactID, List.find?, h, ih]

theorem vmNameMatch_eq (vms : List VM) (t : String) :
    vmNameMatch vms t = (vms.find? (fun v => decide (v.Name = t))).map (fun v => v.ID) := by
  induction vms with
  | nil => rfl
  | cons v rest ih =>
    by_cases h : v.Name = t <;> simp [vmNameMatch, List.find?, h, ih]

theorem vmPartialID_eq (vms : List VM) (t : String) :
    vmPartialID vms t
      = (vms.find? (fun v => strings.HasPrefix v.ID t)).map (fun v => v.ID) := by
  induction vms with
  | nil => rfl
  | cons v rest ih =>
    by_cases h : strings.HasPrefix v.ID t = true <;>
      simp [vmPartialID, List.find?, h, ih]

theorem containerExactID_of_mem {cs : List Container} {t : String}
    (h : ∃ c ∈ cs, c.ID = t) : containerExactID cs t = some t := by
  induction cs with
  | nil => simp at h
  | cons c rest ih =>
    by_cases hc : c.ID = t
    · simp [containerExactID, hc]
    · have : ∃ c ∈ rest, c.ID = t := by
        obtain ⟨d, hd, hdt⟩ := h
        rcases List.mem_cons.1 hd with rfl | hd
        · exact absurd hdt hc
        · exact ⟨d, hd, hdt⟩
      simp [containerExactID, hc, ih this]

theorem vmExactID_of_mem {vms : List VM} {t : String}
    (h : ∃ v ∈ vms, v.ID = t) : vmExactID vms t = some t := by
  induction vms with
  | nil => simp at h
  | cons c rest ih =>
    by_cases hc : c.ID = t
    · simp [vmExactID, hc]
    · have : ∃ c ∈ rest, c.ID = t := by
        obtain ⟨d, hd, hdt⟩ := h
        rcases List.mem_cons.1 hd with rfl | hd
        · exact absurd hdt hc
        · exact ⟨d, hd, hdt⟩
      simp [vmExactID, hc, ih this]

theorem containerExactID_none {cs : List Container} {t : String} :
    containerExactID cs t = none ↔ ∀ c ∈ cs, c.ID ≠ t := by
  rw [containerExactID_eq, Option.map_eq_none',
    find_none_iff (P := fun c : Container => c.ID = t) (by simp)]

theorem containerNameMatch_none {cs : List Container} {t : String} :
    containerNameMatch cs t = none ↔ ∀ c ∈ cs, ¬ HasName c.Names t := by
  rw [containerNameMatch_eq, Option.map_eq_none',
    find_none_iff (P := fun c : Container => HasName c.Names t)
      (fun c => containerNamesHit_iff c.Names t)]

theorem containerPartialID_none {cs : List Container} {t : String} :
    containerPartialID cs t = none ↔ ∀ c ∈ cs, ¬ StartsWith c.ID t := by
  rw [containerPartialID_eq, Option.map_eq_none',
    find_none_iff (P := fun c : Container => StartsWith c.ID t)
      (fun c => hasPrefix_iff_startsWith c.ID t)]

theorem vmExactID_none {vms : List VM} {t : String} :
    vmExactID vms t = none ↔ ∀ v ∈ vms, v.ID ≠ t := by
  rw [vmExactID_eq, Option.map_eq_none',
    find_none_iff (P := fun v : VM => v.ID = t) (by simp)]

theorem vmNameMatch_none {vms : List VM} {t : String} :
    vmNameMatch vms t = none ↔ ∀ v ∈ vms, v.Name ≠ t := by
  rw [vmNameMatch_eq, Option.map_eq_none',
    find_none_iff (P := fun v : VM => v.Name = t) (by simp)]

theorem vmPartialID_none {vms : List VM} {t : String} :
    vmPartialID vms t = none ↔ ∀ v ∈ vms, ¬ StartsWith v.ID t := by
  rw [vmPartialID_eq, Option.map_eq_none',
    find_none_iff (P := fun v : VM => StartsWith v.ID t)
      (fun v => hasPrefix_iff_startsWith v.ID t)]

/-! ## The entity resolver -/

/-- C1. Resolver tier 1: when some container of the list has an ID equal to the token,
`FindContainerID` returns that ID, whatever the names and IDs of the containers before
it. -/
theorem FindContainerID_exact_id_wins (containers : List Container) (token : String)
    (h : ∃ c ∈ containers, c.ID = token) :
    FindContainerID (.ok containers) token = .ok token := by
  simp [FindContainerID, containerExactID_of_mem h]

/-- C1 at a listing whose first container has a name equal to the token and an ID of
which the token is a proper prefix. -/
theorem FindContainerID_exact_id_wins_witness :
    (∃ c ∈ [containerOf "abc123" ["/abc"], containerOf "abc" ["/other"]], c.ID = "abc")
      ∧ FindContainerID (.ok [containerOf "abc123" ["/abc"], containerOf "abc" ["/other"]])
          "abc" = .ok "abc" :=
  ⟨⟨containerOf "abc" ["/other"], by simp, rfl⟩,
    FindContainerID_exact_id_wins _ "abc" ⟨containerOf "abc" ["/other"], by simp, rfl⟩⟩

/-- C2 as stated fails: no ID equals the token `bar`, the first container whose
canonical name is `bar` is `b2`, and yet `FindContainerID` returns `a1`, whose second
name is `bar`. -/
theorem FindContainerID_canonical_name_counterexample :
    (∀ c ∈ [containerOf "a1" ["/foo", "/bar"], containerOf "b2" ["/bar"]], c.ID ≠ "bar")
      ∧ FirstWith (fun c => canonicalName c = some "bar")
          [containerOf "a1" ["/foo", "/bar"], containerOf "b2" ["/bar"]]
          (containerOf "b2" ["/bar"])
      ∧ FindContainerID (.ok [containerOf "a1" ["/foo", "/bar"], containerOf "b2" ["/bar"]])
          "bar" = .ok "a1"
      ∧ FindContainerID (.ok [containerOf "a1" ["/foo", "/bar"], containerOf "b2" ["/bar"]])
          "bar" ≠ .ok (containerOf "b2" ["/bar"]).ID := by
  refine ⟨?_, ⟨[containerOf "a1" ["/foo", "/bar"]], [], rfl, by decide, ?_⟩, rfl, ?_⟩
  · intro c hc
    simp only [List.mem_cons, List.mem_singleton, List.not_mem_nil, or_false] at hc
    rcases hc with rfl | rfl <;> decide
  · intro d hd
    simp only [List.mem_singleton] at hd
    subst hd
    decide
  · rw [show FindContainerID
        (.ok [containerOf "a1" ["/foo", "/bar"], containerOf "b2" ["/bar"]]) "bar"
        = .ok "a1" from rfl]
    simp [containerOf]

/-- C2, amended. Resolver tier 2: when no container ID equals the token,
`FindContainerID` returns the ID of the first container in list order one of whose
names, any of them, equals the token once one leading `/` is stripped. -/
theorem FindContainerID_name_tier (containers : List Container) (token : String)
    (hid : ∀ c ∈ containers, c.ID ≠ token) (c : Container)
    (hc : FirstWith (fun d => HasName d.Names token) containers c) :
    FindContainerID (.ok containers) token = .ok c.ID := by
  have h1 : containerExactID containers token = none := containerExactID_none.2 hid
  have h2 : containerNameMatch containers token = some c.ID := by
    rw [containerNameMatch_eq,
      find_of_firstWith (p := fun d : Container => containerNamesHit d.Names token)
        (fun d => containerNamesHit_iff d.Names token) hc]
    rfl
  simp [FindContainerID, h1, h2]

/-- C2, amended, at the listing of the counterexample: the container found is `a1`. -/
theorem FindContainerID_name_tier_witness :
    FindContainerID (.ok [containerOf "a1" ["/foo", "/bar"], containerOf "b2" ["/bar"]])
      "bar" = .ok "a1" :=
  FindContainerID_name_tier
    [containerOf "a1" ["/foo", "/bar"], containerOf "b2" ["/bar"]] "bar"
    (by
      intro c hc
      simp only [List.mem_cons, List.mem_singleton, List.not_mem_nil, or_false] at hc
      rcases hc with rfl | rfl <;> decide)
    (containerOf "a1" ["/foo", "/bar"])
    ⟨[], [containerOf "b2" ["/bar"]], rfl, ⟨"/bar", by simp [containerOf], by decide⟩,
      by simp⟩

/-- C3. Resolver tier 3: when no container has an ID or a name (one leading `/`
stripped) equal to the token, `FindContainerID` returns the ID of the first container
in list order whose ID starts with the token. -/
theorem FindContainerID_prefix_tier (containers : List Container) (token : String)
    (hid : ∀ c ∈ containers, c.ID ≠ token)
    (hname : ∀ c ∈ containers, ¬ HasName c.Names token) (c : Container)
    (hc : FirstWith (fun d => StartsWith d.ID token) containers c) :
    FindContainerID (.ok containers) token = .ok c.ID := by
  have h1 : containerExactID containers token = none := containerExactID_none.2 hid
  have h2 : containerNameMatch containers token = none := containerNameMatch_none.2 hname
  have h3 : containerPartialID containers token = some c.ID := by
    rw [containerPartialID_eq,
      find_of_firstWith (p := fun d : Container => strings.HasPrefix d.ID token)
        (fun d => hasPrefix_iff_startsWith d.ID token) hc]
    rfl
  simp [FindContainerID, h1, h2, h3]

/-- C3 at the listing of the specification and at its reversal: token `abc` resolves
to `abc123` in the first order and to `abc999` in the second. -/
theorem FindContainerID_prefix_tier_witness :
    FindContainerID
        (.ok [containerOf "abc123" ["/foo"], containerOf "abc999" ["/abcdef"]]) "abc"
        = .ok "abc123"
      ∧ FindContainerID
        (.ok [containerOf "abc999" ["/abcdef"], containerOf "abc123" ["/foo"]]) "abc"
        = .ok "abc999" := by
  have hid : ∀ l : List Container,
      (∀ c ∈ l, c = containerOf "abc123" ["/foo"] ∨ c = containerOf "abc999" ["/abcdef"]) →
      (∀ c ∈ l, c.ID ≠ "abc") ∧ (∀ c ∈ l, ¬ HasName c.Names "abc") := by
    intro l hl
    refine ⟨fun c hc => ?_, fun c hc => ?_⟩
    · rcases hl c hc with rfl | rfl <;> decide
    · rcases hl c hc with rfl | rfl
      · rintro ⟨n, hn, h⟩
        simp only [containerOf, List.mem_singleton] at hn
        subst hn
        revert h
        decide
      · rintro ⟨n, hn, h⟩
        simp only [containerOf, List.mem_singleton] at hn
        subst hn
        revert h
        decide
  constructor
  · have h := hid [containerOf "abc123" ["/foo"], containerOf "abc999" ["/abcdef"]]
      (by simp)
    exact FindContainerID_prefix_tier _ "abc" h.1 h.2 (containerOf "abc123" ["/foo"])
      ⟨[], [containerOf "abc999" ["/abcdef"]], rfl, ⟨"123", rfl⟩, by simp⟩
  · have h := hid [containerOf "abc999" ["/abcdef"], containerOf "abc123" ["/foo"]]
      (by simp)
    exact FindContainerID_prefix_tier _ "abc" h.1 h.2 (containerOf "abc999" ["/abcdef"])
      ⟨[], [containerOf "abc123" ["/foo"]], rfl, ⟨"999", rfl⟩, by simp⟩

/-- C4. Resolver miss: on a fetched listing `FindContainerID` fails exactly when no
container has an ID equal to the token, a name (one leading `/` stripped) equal to the
token, or an ID starting with the token; and the only error it then returns is
`container not found: <token>`. -/
theorem FindContainerID_miss (containers : List Container) (token : String) :
    ((∃ e, FindContainerID (.ok containers) token = .error e) ↔
        ∀ c ∈ containers,
          c.ID ≠ token ∧ ¬ HasName c.Names token ∧ ¬ StartsWith c.ID token)
      ∧ ∀ e, FindContainerID (.ok containers) token = .error e →
          e = "container not found: " ++ token := by
  have key : ∀ e, FindContainerID (.ok containers) token = .error e →
      e = "container not found: " ++ token ∧
        containerExactID containers token = none ∧
        containerNameMatch containers token = none ∧
        containerPartialID containers token = none := by
    intro e he
    unfold FindContainerID at he
    cases h1 : containerExactID containers token with
    | some id => simp [h1] at he
    | none =>
      cases h2 : containerNameMatch containers token with
      | some id => simp [h1, h2] at he
      | none =>
        cases h3 : containerPartialID containers token with
        | some id => simp [h1, h2, h3] at he
        | none =>
          simp only [h1, h2, h3, Except.error.injEq] at he
          exact ⟨he.symm, rfl, rfl, rfl⟩
  refine ⟨⟨?_, ?_⟩, fun e he => (key e he).1⟩
  · rintro ⟨e, he⟩ c hc
    obtain ⟨-, h1, h2, h3⟩ := key e he
    exact ⟨containerExactID_none.1 h1 c hc, containerNameMatch_none.1 h2 c hc,
      containerPartialID_none.1 h3 c hc⟩
  · intro h
    have h1 := containerExactID_none.2 (fun c hc => (h c hc).1)
    have h2 := containerNameMatch_none.2 (fun c hc => (h c hc).2.1)
    have h3 := containerPartialID_none.2 (fun c hc => (h c hc).2.2)
    exact ⟨"container not found: " ++ token, by simp [FindContainerID, h1, h2, h3]⟩

/-- C5. The virtual-machine resolver has the same precedence: the token itself when
some VM has it as ID; otherwise the ID of the first VM whose name equals the token;
otherwise the ID of the first VM whose ID starts with the token; otherwise the error
`VM not found: <token>`. -/
theorem FindVMID_precedence (vms : List VM) (token : String) :
    ((∃ v ∈ vms, v.ID = token) → FindVMID (.ok vms) token = .ok token)
      ∧ ((∀ v ∈ vms, v.ID ≠ token) →
          ∀ v, FirstWith (fun d : VM => d.Name = token) vms v →
            FindVMID (.ok vms) token = .ok v.ID)
      ∧ ((∀ v ∈ vms, v.ID ≠ token) → (∀ v ∈ vms, v.Name ≠ token) →
          ∀ v, FirstWith (fun d : VM => StartsWith d.ID token) vms v →
            FindVMID (.ok vms) token = .ok v.ID)
      ∧ ((∀ v ∈ vms, v.ID ≠ token) → (∀ v ∈ vms, v.Name ≠ token) →
          (∀ v ∈ vms, ¬ StartsWith v.ID token) →
            FindVMID (.ok vms) token = .error ("VM not found: " ++ token)) := by
  refine ⟨fun h => ?_, fun hid v hv => ?_, fun hid hname v hv => ?_,
    fun hid hname hpre => ?_⟩
  · simp [FindVMID, vmExactID_of_mem h]
  · have h1 := vmExactID_none.2 hid
    have h2 : vmNameMatch vms token = some v.ID := by
      rw [vmNameMatch_eq,
        find_of_firstWith (p := fun d : VM => decide (d.Name = token)) (by simp) hv]
      rfl
    simp [FindVMID, h1, h2]
  · have h1 := vmExactID_none.2 hid
    have h2 := vmNameMatch_none.2 hname
    have h3 : vmPartialID vms token = some v.ID := by
      rw [vmPartialID_eq,
        find_of_firstWith (p := fun d : VM => strings.HasPrefix d.ID token)
          (fun d => hasPrefix_iff_startsWith d.ID token) hv]
      rfl
    simp [FindVMID, h1, h2, h3]
  · have h1 := vmExactID_none.2 hid
    have h2 := vmNameMatch_none.2 hname
    have h3 := vmPartialID_none.2 hpre
    simp [FindVMID, h1, h2, h3]

/-- C4 at a listing that token `zzz` does not match: the resolver fails, with the
not-found error. -/
theorem FindContainerID_miss_witness :
    (∃ e, FindContainerID
        (.ok [containerOf "abc123" ["/foo"], containerOf "abc999" ["/abcdef"]]) "zzz"
        = .error e)
      ∧ FindContainerID
        (.ok [containerOf "abc123" ["/foo"], containerOf "abc999" ["/abcdef"]]) "zzz"
        = .error "container not found: zzz" := by
  have h := FindContainerID_miss
    [containerOf "abc123" ["/foo"], containerOf "abc999" ["/abcdef"]] "zzz"
  have hmiss : ∃ e, FindContainerID
      (.ok [containerOf "abc123" ["/foo"], containerOf "abc999" ["/abcdef"]]) "zzz"
      = .error e := ⟨_, rfl⟩
  obtain ⟨e, he⟩ := hmiss
  refine ⟨⟨e, he⟩, ?_⟩
  rw [he, h.2 e he]
  rfl

/-- C5 at a listing of two machines: token `vm-2` hits tier 1, `web` tier 2, `vm`
tier 3, and `zzz` misses. -/
theorem FindVMID_precedence_witness :
    FindVMID (.ok [vmOf "vm-10" "vm-2", vmOf "vm-2" "web"]) "vm-2" = .ok "vm-2"
      ∧ FindVMID (.ok [vmOf "vm-10" "vm-2", vmOf "vm-2" "web"]) "web" = .ok "vm-2"
      ∧ FindVMID (.ok [vmOf "vm-10" "vm-2", vmOf "vm-2" "web"]) "vm" = .ok "vm-10"
      ∧ FindVMID (.ok [vmOf "vm-10" "vm-2", vmOf "vm-2" "web"]) "zzz"
          = .error "VM not found: zzz" := by
  have mem : ∀ (P : VM → Prop), P (vmOf "vm-10" "vm-2") → P (vmOf "vm-2" "web") →
      ∀ v ∈ [vmOf "vm-10" "vm-2", vmOf "vm-2" "web"], P v := by
    intro P h1 h2 v hv
    simp only [List.mem_cons, List.mem_singleton, List.not_mem_nil, or_false] at hv
    rcases hv with rfl | rfl <;> assumption
  have npre : ∀ id t : String, strings.HasPrefix id t = false → ¬ StartsWith id t := by
    intro id t h hs
    rw [← hasPrefix_iff_startsWith, h] at hs
    exact Bool.false_ne_true hs
  refine ⟨?_, ?_, ?_, ?_⟩
  · exact (FindVMID_precedence [vmOf "vm-10" "vm-2", vmOf "vm-2" "web"] "vm-2").1
      ⟨vmOf "vm-2" "web", by simp, rfl⟩
  · exact (FindVMID_precedence [vmOf "vm-10" "vm-2", vmOf "vm-2" "web"] "web").2.1
      (mem _ (by decide) (by decide)) (vmOf "vm-2" "web")
      ⟨[vmOf "vm-10" "vm-2"], [], rfl, rfl, by simp [vmOf]⟩
  · exact (FindVMID_precedence [vmOf "vm-10" "vm-2", vmOf "vm-2" "web"] "vm").2.2.1
      (mem _ (by decide) (by decide)) (mem _ (by decide) (by decide))
      (vmOf "vm-10" "vm-2")
      ⟨[], [vmOf "vm-2" "web"], rfl, ⟨"-10", rfl⟩, by simp⟩
  · exact (FindVMID_precedence [vmOf "vm-10" "vm-2", vmOf "vm-2" "web"] "zzz").2.2.2
      (mem _ (by decide) (by decide)) (mem _ (by decide) (by decide))
      (mem _ (npre _ _ rfl) (npre _ _ rfl))

/-! ## Lemmas on strings and on the column widths -/

theorem length_le_utf8ByteSize (s : String) : s.length ≤ s.utf8ByteSize := by
  obtain ⟨l⟩ := s
  show l.length ≤ String.utf8ByteSize.go l
  induction l with
  | nil => simp [String.utf8ByteSize.go]
  | cons c cs ih =>
    have := Char.utf8Size_pos c
    simp only [String.utf8ByteSize.go, List.length_cons]
    omega

theorem widenRow_length (w : List Nat) (i : Nat) (row : List String) :
    (widenRow w i row).length = w.length := by
  induction row generalizing w i with
  | nil => rfl
  | cons cell rest ih =>
    unfold widenRow
    split
    · rw [ih]; simp
    · rw [ih]

theorem widenRow_mono (w : List Nat) (i : Nat) (row : List String) (j : Nat) :
    w.getD j 0 ≤ (widenRow w i row).getD j 0 := by
  induction row generalizing w i with
  | nil => exact Nat.le_refl _
  | cons cell rest ih =>
    unfold widenRow
    split
    · rename_i h
      refine Nat.le_trans ?_ (ih _ _)
      by_cases hij : i = j
      · subst hij
        have h2 := h.2
        simp only [List.getD_eq_getElem?_getD, List.getElem?_set_self h.1,
          Option.getD_some] at h2 ⊢
        omega
      · simp [List.getD_eq_getElem?_getD, List.getElem?_set_ne hij]
    · exact ih _ _

theorem widenRow_cell (w : List Nat) (i : Nat) (row : List String) (k : Nat)
    (cell : String) (hk : row[k]? = some cell) (hi : i + k < w.length) :
    cell.utf8ByteSize ≤ (widenRow w i row).getD (i + k) 0 := by
  induction row generalizing w i k with
  | nil => simp at hk
  | cons c rest ih =>
    cases k with
    | zero =>
      simp only [List.getElem?_cons_zero, Option.some.injEq] at hk
      subst hk
      simp only [Nat.add_zero] at hi ⊢
      unfold widenRow
      split
      · refine Nat.le_trans ?_ (widenRow_mono _ _ _ _)
        simp [List.getD_eq_getElem?_getD, List.getElem?_set_self hi]
      · rename_i h
        refine Nat.le_trans ?_ (widenRow_mono _ _ _ _)
        simp only [hi, true_and, not_lt] at h
        omega
    | succ k =>
      simp only [List.getElem?_cons_succ] at hk
      have hi2 : (i + 1) + k < w.length := by omega
      unfold widenRow
      rw [show i + (k + 1) = (i + 1) + k by omega]
      split
      · exact ih _ _ _ hk (by simpa using hi2)
      · exact ih _ _ _ hk hi2

theorem widenRows_mono (w : List Nat) (rows : List (List String)) (j : Nat) :
    w.getD j 0 ≤ (widenRows w rows).getD j 0 := by
  induction rows generalizing w with
  | nil => exact Nat.le_refl _
  | cons row rest ih =>
    exact Nat.le_trans (widenRow_mono w 0 row j) (ih _)

theorem widenRows_cell (w : List Nat) (rows : List (List String)) (row : List String)
    (hrow : row ∈ rows) (k : Nat) (cell : String) (hk : row[k]? = some cell)
    (hi : k < w.length) :
    cell.utf8ByteSize ≤ (widenRows w rows).getD k 0 := by
  induction rows generalizing w with
  | nil => simp at hrow
  | cons r rest ih =>
    rcases List.mem_cons.1 hrow with rfl | hmem
    · show cell.utf8ByteSize ≤ (widenRows (widenRow w 0 row) rest).getD k 0
      refine Nat.le_trans ?_ (widenRows_mono _ _ _)
      have := widenRow_cell w 0 row k cell hk (by omega)
      simpa using this
    · show cell.utf8ByteSize ≤ (widenRows (widenRow w 0 r) rest).getD k 0
      exact ih _ hmem (by rw [widenRow_length]; exact hi)

theorem calcColWidths_cell (headers : List String) (rows : List (List String))
    (row : List String) (hrow : row ∈ rows) (i : Nat) (cell : String)
    (hc : row[i]? = some cell) (hi : i < headers.length) :
    cell.length ≤ (calcColWidths headers rows).getD i 0 := by
  refine Nat.le_trans (length_le_utf8ByteSize cell) ?_
  exact widenRows_cell _ rows row hrow i cell hc (by simpa using hi)

theorem widenRow_attained (w : List Nat) (i : Nat) (row : List String) (j : Nat) :
    (widenRow w i row).getD j 0 = w.getD j 0
      ∨ ∃ k cell, row[k]? = some cell ∧ i + k = j
          ∧ (widenRow w i row).getD j 0 = cell.utf8ByteSize := by
  induction row generalizing w i with
  | nil => exact Or.inl rfl
  | cons c rest ih =>
    have lift : ∀ w' : List Nat,
        ((widenRow w' (i + 1) rest).getD j 0 = w'.getD j 0
          ∨ ∃ k cell, rest[k]? = some cell ∧ i + 1 + k = j
              ∧ (widenRow w' (i + 1) rest).getD j 0 = cell.utf8ByteSize) →
        (w'.getD j 0 = w.getD j 0 ∨ (i = j ∧ w'.getD j 0 = c.utf8ByteSize)) →
        ((widenRow w' (i + 1) rest).getD j 0 = w.getD j 0
          ∨ ∃ k cell, (c :: rest)[k]? = some cell ∧ i + k = j
              ∧ (widenRow w' (i + 1) rest).getD j 0 = cell.utf8ByteSize) := by
      intro w' h1 h2
      rcases h1 with h1 | ⟨k, cell, hk, hik, hv⟩
      · rcases h2 with h2 | ⟨hij, h2⟩
        · exact Or.inl (h1.trans h2)
        · exact Or.inr ⟨0, c, by simp, by omega, h1.trans h2⟩
      · exact Or.inr ⟨k + 1, cell, by simpa using hk, by omega, hv⟩
    unfold widenRow
    split
    · rename_i h
      refine lift _ (ih _ _) ?_
      by_cases hij : i = j
      · subst hij
        exact Or.inr ⟨rfl, by simp [List.getD_eq_getElem?_getD, List.getElem?_set_self h.1]⟩
      · exact Or.inl (by simp [List.getD_eq_getElem?_getD, List.getElem?_set_ne hij])
    · exact lift _ (ih _ _) (Or.inl rfl)

theorem widenRows_attained (w : List Nat) (rows : List (List String)) (j : Nat) :
    (widenRows w rows).getD j 0 = w.getD j 0
      ∨ ∃ row ∈ rows, ∃ cell, row[j]? = some cell
          ∧ (widenRows w rows).getD j 0 = cell.utf8ByteSize := by
  induction rows generalizing w with
  | nil => exact Or.inl rfl
  | cons r rest ih =>
    show (widenRows (widenRow w 0 r) rest).getD j 0 = w.getD j 0 ∨ _
    rcases ih (widenRow w 0 r) with h | ⟨row, hrow, cell, hc, hv⟩
    · rcases widenRow_attained w 0 r j with h2 | ⟨k, cell, hk, hik, hv⟩
      · exact Or.inl (h.trans h2)
      · refine Or.inr ⟨r, by simp, cell, ?_, h.trans hv⟩
        have : k = j := by omega
        rw [← this]
        exact hk
    · exact Or.inr ⟨row, List.mem_cons_of_mem _ hrow, cell, hc, hv⟩

/-- What the width computation yields: the width of column `i` is the largest byte
length among the header of the column and the cells of the column. -/
theorem calcColWidths_is_max_byte_length (headers : List String)
    (rows : List (List String)) (i : Nat) (h : String) (hi : headers[i]? = some h) :
    h.utf8ByteSize ≤ (calcColWidths headers rows).getD i 0
      ∧ (∀ row ∈ rows, ∀ cell, row[i]? = some cell →
          cell.utf8ByteSize ≤ (calcColWidths headers rows).getD i 0)
      ∧ ((calcColWidths headers rows).getD i 0 = h.utf8ByteSize
          ∨ ∃ row ∈ rows, ∃ cell, row[i]? = some cell
              ∧ (calcColWidths headers rows).getD i 0 = cell.utf8ByteSize) := by
  have hlt : i < headers.length := by
    rcases Nat.lt_or_ge i headers.length with h1 | h1
    · exact h1
    · rw [List.getElem?_eq_none h1] at hi
      cases hi
  have h0 : (headers.map String.utf8ByteSize).getD i 0 = h.utf8ByteSize := by
    simp [List.getD_eq_getElem?_getD, List.getElem?_map, hi]
  refine ⟨?_, ?_, ?_⟩
  · rw [← h0]
    exact widenRows_mono _ _ _
  · intro row hrow cell hc
    exact widenRows_cell _ rows row hrow i cell hc (by simpa using hlt)
  · rcases widenRows_attained (headers.map String.utf8ByteSize) rows i with h1 | h1
    · exact Or.inl (h1.trans h0)
    · exact Or.inr h1

theorem visibleChars_length_le (b : Bool) (l : List Char) :
    (visibleChars b l).length ≤ l.length := by
  induction l generalizing b with
  | nil => cases b <;> simp [visibleChars]
  | cons c cs ih =>
    cases b with
    | true =>
      simp only [visibleChars, List.length_cons]
      exact Nat.le_succ_of_le (ih _)
    | false =>
      simp only [visibleChars]
      split
      · simp only [List.length_cons]
        exact Nat.le_succ_of_le (ih _)
      · simp only [List.length_cons]
        exact Nat.succ_le_succ (ih _)

/-- The part of width correctness that holds: a column is at least as wide as the
visible width of each of its cells. -/
theorem column_covers_visible_cell (headers : List String) (rows : List (List String))
    (row : List String) (hrow : row ∈ rows) (i : Nat) (cell : String)
    (hc : row[i]? = some cell) (hi : i < headers.length) :
    visibleLength cell ≤ (calcColWidths headers rows).getD i 0 :=
  Nat.le_trans (visibleChars_length_le false cell.data)
    (calcColWidths_cell headers rows row hrow i cell hc hi)

/-! ## Lemmas on the print loops -/

theorem noNewline_append (a b : String) :
    NoNewline (a ++ b) ↔ NoNewline a ∧ NoNewline b := by
  simp [NoNewline, String.data_append, List.mem_append, not_or]

theorem mapSet_fresh (m : StringMap) (k v : String) (h : k ∉ m.map Prod.fst) :
    mapSet m k v = m ++ [(k, v)] := by
  induction m with
  | nil => rfl
  | cons e rest ih =>
    obtain ⟨k', v'⟩ := e
    simp only [List.map_cons, List.mem_cons, not_or] at h
    simp [mapSet, Ne.symm h.1, ih h.2]

theorem fillRowMap_nodup (r : List String) (m : StringMap) (j : Nat) (hs : List String)
    (hnd : hs.Nodup) (hfresh : ∀ h ∈ hs, h ∉ m.map Prod.fst) :
    fillRowMap r m j hs = m ++ List.zip hs (r.drop j) := by
  induction hs generalizing m j with
  | nil => simp [fillRowMap]
  | cons c rest ih =>
    rw [List.nodup_cons] at hnd
    unfold fillRowMap
    split
    · rename_i hj
      rw [mapSet_fresh _ _ _ (hfresh c (by simp)), ih _ _ hnd.2, List.drop_eq_getElem_cons hj]
      · simp only [List.zip_cons_cons, List.append_assoc, List.singleton_append,
          List.getD_eq_getElem?_getD, List.getElem?_eq_getElem hj, Option.getD_some]
      · intro h hh
        simp only [List.map_append, List.map_cons, List.map_nil, List.mem_append,
          List.mem_singleton, not_or]
        refine ⟨hfresh h (List.mem_cons_of_mem _ hh), ?_⟩
        rintro rfl
        exact hnd.1 hh
    · rename_i hj
      rw [ih _ _ hnd.2 (fun h hh => hfresh h (List.mem_cons_of_mem _ hh)),
        List.drop_eq_nil_of_le (by omega), List.drop_eq_nil_of_le (by omega)]
      simp

theorem rowMapOf_nodup (headers row : List String) (hnd : headers.Nodup) :
    rowMapOf headers row = List.zip headers row := by
  rw [rowMapOf, fillRowMap_nodup _ _ _ _ hnd (by simp)]
  simp

/-! ## The tabular renderer -/

set_option maxRecDepth 100000 in
/-- C6 at the table of `docker ls` with colours enabled: the escape bytes of the
coloured state cell are counted as width, so the header and the separator start the
`Status` column at visible offset 42 and the data row starts it at visible offset 33. -/
theorem PrintTable_coloured_cell_misaligned :
    Formatter.PrintTable ⟨FormatTable, Writer.accepting⟩ dockerLsHeaders [dockerLsRunningRow]
        = [Written.text
            ("Name  Image             State             Status     Autostart\n"
              ++ "----  ----------------  ----------------  ---------  ---------\n"
              ++ "plex  linuxserver/plex  \x1b[32mRUNNING\x1b[0m  Up 3 days  ✓        \n")]
      ∧ visible (headerLine (calcColWidths dockerLsHeaders [dockerLsRunningRow])
            dockerLsHeaders)
          = "Name  Image             State             Status     Autostart"
      ∧ visible (rowLine (calcColWidths dockerLsHeaders [dockerLsRunningRow])
            dockerLsRunningRow)
          = "plex  linuxserver/plex  RUNNING  Up 3 days  ✓        "
      ∧ columnOffset (List.zipWith padRight
            (calcColWidths dockerLsHeaders [dockerLsRunningRow]) dockerLsHeaders) 3 = 42
      ∧ columnOffset ((calcColWidths dockerLsHeaders [dockerLsRunningRow]).map
            (strings.Repeat "-")) 3 = 42
      ∧ columnOffset (List.zipWith padRight
            (calcColWidths dockerLsHeaders [dockerLsRunningRow]) dockerLsRunningRow) 3
          = 33 := by
  decide

set_option maxRecDepth 100000 in
/-- C7 at the table of `docker ls` with colours enabled: the `State` column gets
width 16, the byte length of the coloured cell, while the header has 5 visible
characters and the cell 7. -/
theorem calcColWidths_counts_escape_bytes :
    calcColWidths dockerLsHeaders [dockerLsRunningRow] = [4, 16, 16, 9, 9]
      ∧ separatorLine (calcColWidths dockerLsHeaders [dockerLsRunningRow])
          = "----  ----------------  ----------------  ---------  ---------"
      ∧ visibleLength "State" = 5
      ∧ visibleLength (Green true "RUNNING") = 7
      ∧ (Green true "RUNNING").utf8ByteSize = 16 := by
  decide

/-- C10 as stated fails: with the header `A` given twice, the row `[1, 2]` has the
(header, cell) pairs `(A, 1)` and `(A, 2)`, and the mapping serialised for it holds
`(A, 2)` only. -/
theorem PrintTable_structured_counterexample :
    Formatter.PrintTable ⟨FormatJSON, Writer.accepting⟩ ["A", "A"] [["1", "2"]]
        = [Written.json (Data.maps [[("A", "2")]])]
      ∧ Formatter.PrintTable ⟨FormatYAML, Writer.accepting⟩ ["A", "A"] [["1", "2"]]
        = [Written.yaml (Data.maps [[("A", "2")]])]
      ∧ (["A", "A"][0]? = some "A" ∧ ["1", "2"][0]? = some "1")
      ∧ ("A", "1") ∉ rowMapOf ["A", "A"] ["1", "2"] := by
  decide

/-- C10, amended. In JSON or YAML mode, on a writer that takes the writes,
`PrintTable` hands the encoder a sequence holding one mapping per row, in row order; when the headers are pairwise distinct, the
(key, value) pairs of the mapping of a row are exactly the pairs of a header and the
cell of the row at the same index. -/
theorem PrintTable_structured (f : Formatter) (hw : f.writer = Writer.accepting)
    (headers : List String) (rows : List (List String)) :
    (f.format = FormatJSON →
        f.PrintTable headers rows
          = [Written.json (Data.maps (rows.map (rowMapOf headers)))])
      ∧ (f.format = FormatYAML →
        f.PrintTable headers rows
          = [Written.yaml (Data.maps (rows.map (rowMapOf headers)))])
      ∧ (headers.Nodup → ∀ row ∈ rows, ∀ k v : String,
          (k, v) ∈ rowMapOf headers row ↔
            ∃ j : Nat, headers[j]? = some k ∧ row[j]? = some v) := by
  refine ⟨fun hf => ?_, fun hf => ?_, fun hnd row _ k v => ?_⟩
  · simp [Formatter.PrintTable, Formatter.Print, Formatter.printJSON, Formatter.write,
      hf, hw, FormatJSON, FormatTable]
  · simp [Formatter.PrintTable, Formatter.Print, Formatter.printYAML, Formatter.write,
      hf, hw, FormatYAML, FormatTable, FormatJSON]
  · rw [rowMapOf_nodup headers row hnd, List.mem_iff_getElem?]
    simp only [List.getElem?_zip_eq_some]

/-- C10, amended, at a table of two distinct headers and two rows. -/
theorem PrintTable_structured_witness :
    Formatter.PrintTable ⟨FormatJSON, Writer.accepting⟩ ["Name", "State"] [["plex", "RUNNING"], ["db", "EXITED"]]
        = [Written.json (Data.maps
            [[("Name", "plex"), ("State", "RUNNING")], [("Name", "db"), ("State", "EXITED")]])]
      ∧ Formatter.PrintTable ⟨FormatYAML, Writer.accepting⟩ ["Name", "State"] [["plex", "RUNNING"], ["db", "EXITED"]]
        = [Written.yaml (Data.maps
            [[("Name", "plex"), ("State", "RUNNING")], [("Name", "db"), ("State", "EXITED")]])]
      ∧ ("State", "EXITED") ∈ rowMapOf ["Name", "State"] ["db", "EXITED"] :=
  have hj := PrintTable_structured ⟨FormatJSON, Writer.accepting⟩ rfl ["Name", "State"]
    [["plex", "RUNNING"], ["db", "EXITED"]]
  have hy := PrintTable_structured ⟨FormatYAML, Writer.accepting⟩ rfl ["Name", "State"]
    [["plex", "RUNNING"], ["db", "EXITED"]]
  ⟨(hj.1 rfl).trans (by decide), (hy.2.1 rfl).trans (by decide),
    (hj.2.2 (by decide) ["db", "EXITED"] (by simp) "State" "EXITED").2 ⟨1, rfl, rfl⟩⟩

/-! ## The output formatter -/

set_option maxRecDepth 100000 in
/-- C11 at `array start` and `docker ls` run without `--output` on a configuration
whose default is `json`: the formatter is in JSON mode, and yet `array start` writes
the plain success line and `docker ls` the row mappings of its table, where with
`-o json` they write the status mapping and the container listing. -/
theorem command_branch_ignores_config_default :
    (cmd.resolveFormatter strings.asciiToLower Writer.accepting "" "json").format = FormatJSON
      ∧ cmd.resolveFormatter strings.asciiToLower Writer.accepting "" "json"
          = cmd.resolveFormatter strings.asciiToLower Writer.accepting "json" "json"
      ∧ cmd.arrayStartRunE Writer.accepting ""
            (cmd.resolveFormatter strings.asciiToLower Writer.accepting "" "json") none
          = ([Written.text "Starting array...\n",
              Written.text "✓ Array started successfully\n"], none)
      ∧ cmd.arrayStartRunE Writer.accepting "json"
            (cmd.resolveFormatter strings.asciiToLower Writer.accepting "json" "json") none
          = ([Written.text "Starting array...\n",
              Written.json (Data.map
                [("status", "success"), ("message", "Array started successfully")])], none)
      ∧ cmd.dockerLsOutput strings.asciiToUpper false ""
            (cmd.resolveFormatter strings.asciiToLower Writer.accepting "" "json")
            [plexContainer]
          = some [Written.json (Data.maps
              [[("Name", "plex"), ("Image", "linuxserver/plex"), ("State", "RUNNING"),
                ("Status", "Up 3 days"), ("Autostart", "✓")]])]
      ∧ cmd.dockerLsOutput strings.asciiToUpper false "json"
            (cmd.resolveFormatter strings.asciiToLower Writer.accepting "json" "json")
            [plexContainer]
          = some [Written.json (Data.containers [plexContainer])] := by
  decide

/-- C12. Format normalisation: the formatter built by `New` is in table, JSON or YAML
mode; it is in JSON mode exactly when the lower-cased argument is `json`, in YAML mode
exactly when it is `yaml`, and in table mode for every other argument, the empty
string and `xml` among them. -/
theorem New_format (toLower : String → String) (stdout : Writer) (s : String) :
    ((New toLower stdout s).format = FormatTable
        ∨ (New toLower stdout s).format = FormatJSON
        ∨ (New toLower stdout s).format = FormatYAML)
      ∧ ((New toLower stdout s).format = FormatJSON ↔ toLower s = "json")
      ∧ ((New toLower stdout s).format = FormatYAML ↔ toLower s = "yaml")
      ∧ ((New toLower stdout s).format = FormatTable ↔
          (toLower s ≠ "json" ∧ toLower s ≠ "yaml"))
      ∧ (New strings.asciiToLower stdout "").format = FormatTable
      ∧ (New strings.asciiToLower stdout "xml").format = FormatTable
      ∧ (New strings.asciiToLower stdout "JSON").format = FormatJSON
      ∧ (New strings.asciiToLower stdout "Yaml").format = FormatYAML := by
  have hjt : ("json" : String) ≠ "table" := by decide
  have hyt : ("yaml" : String) ≠ "table" := by decide
  have hjy : ("json" : String) ≠ "yaml" := by decide
  refine ⟨?_, ?_, ?_, ?_, rfl, rfl, rfl, rfl⟩
  all_goals
    simp only [output.New, FormatTable, FormatJSON, FormatYAML]
    by_cases h1 : toLower s = "table"
    · simp [h1, hjt.symm, hyt.symm]
    · by_cases h2 : toLower s = "json"
      · simp [h2, hjt, hjy]
      · by_cases h3 : toLower s = "yaml"
        · simp [h3, hyt, hjy.symm]
        · simp [h1, h2, h3, hjt.symm, hyt.symm]

/-- C12 at `JSON`, under the lower-casing of the ASCII letters: the mode is JSON. -/
theorem New_format_witness :
    (New strings.asciiToLower Writer.accepting "JSON").format = FormatJSON :=
  (New_format strings.asciiToLower Writer.accepting "JSON").2.1.2 (by decide)

theorem printKeyValueEntries_accepting (f : Formatter) (hw : f.writer = Writer.accepting)
    (data : List (String × Value)) :
    printKeyValueEntries f data
      = data.map (fun e => Written.text (e.1 ++ ":\t" ++ e.2.format ++ "\n")) := by
  induction data with
  | nil => rfl
  | cons e rest ih =>
    obtain ⟨key, value⟩ := e
    simp [printKeyValueEntries, Formatter.write, hw, ih]

/-- C13 as stated fails: in table mode the entry `Name`, `tank` is written as
`Name:<TAB>tank`, not as `Name: tank`; an entry whose value holds a newline takes two
lines; and the bare `Print` writes nothing in table mode and returns an error. -/
theorem PrintKeyValue_counterexample :
    Formatter.PrintKeyValue ⟨FormatTable, Writer.accepting⟩ [("Name", Value.str "tank")]
        = ([Written.text "Name:\ttank\n"], none)
      ∧ ("Name:\ttank\n" : String) ≠ "Name: tank\n"
      ∧ Formatter.PrintKeyValue ⟨FormatTable, Writer.accepting⟩
          [("Comment", Value.str "a\nb")]
        = ([Written.text "Comment:\ta\nb\n"], none)
      ∧ ("Comment:\ta\nb\n" : String).data.count '\n' = 2
      ∧ Formatter.Print ⟨FormatTable, Writer.accepting⟩
          (Data.keyValues [("Name", Value.str "tank")])
        = ([], some "table format requires using PrintTable method") := by
  decide

/-- C13, amended. Key-value emission in table mode: on a writer that takes the writes,
`PrintKeyValue` writes, for each entry in the order it is visited, the key, a colon, a
tab, the value in its default format and a newline, and returns no error; this is one
line per entry when no key and no formatted value holds a newline. The bare `Print`
in table mode writes nothing, whatever the payload, and returns the error
`table format requires using PrintTable method`. -/
theorem PrintKeyValue_table (f : Formatter) (hf : f.format = FormatTable)
    (hw : f.writer = Writer.accepting) (data : List (String × Value)) :
    f.PrintKeyValue data
        = (data.map (fun e => Written.text (e.1 ++ ":\t" ++ e.2.format ++ "\n")), none)
      ∧ (f.PrintKeyValue data).1.length = data.length
      ∧ ((∀ e ∈ data, NoNewline e.1 ∧ NoNewline e.2.format) →
          ∀ w ∈ (f.PrintKeyValue data).1,
            ∃ line, w = Written.text (line ++ "\n") ∧ NoNewline line)
      ∧ (∀ payload : Data,
          f.Print payload = ([], some "table format requires using PrintTable method")) := by
  have h : f.PrintKeyValue data
      = (data.map (fun e => Written.text (e.1 ++ ":\t" ++ e.2.format ++ "\n")), none) := by
    simp [Formatter.PrintKeyValue, hf, printKeyValueEntries_accepting f hw]
  refine ⟨h, by simp [h], ?_, ?_⟩
  swap
  · intro payload
    simp [Formatter.Print, hf, FormatTable, FormatJSON, FormatYAML]
  intro hn w hmem
  rw [h] at hmem
  obtain ⟨e, he, rfl⟩ := List.mem_map.1 hmem
  refine ⟨e.1 ++ ":\t" ++ e.2.format, rfl, ?_⟩
  have htab : NoNewline ":\t" := by decide
  exact (noNewline_append _ _).2
    ⟨(noNewline_append _ _).2 ⟨(hn e he).1, htab⟩, (hn e he).2⟩

/-- C13, amended, at a payload of two entries: `PrintKeyValue` writes two lines, and
`Print` refuses the same payload. -/
theorem PrintKeyValue_table_witness :
    Formatter.PrintKeyValue ⟨FormatTable, Writer.accepting⟩
        [("Name", Value.str "tank"), ("Disks", Value.int 4)]
      = ([Written.text "Name:\ttank\n", Written.text "Disks:\t4\n"], none)
      ∧ Formatter.Print ⟨FormatTable, Writer.accepting⟩
          (Data.keyValues [("Name", Value.str "tank"), ("Disks", Value.int 4)])
        = ([], some "table format requires using PrintTable method") :=
  have h := PrintKeyValue_table ⟨FormatTable, Writer.accepting⟩ rfl rfl
    [("Name", Value.str "tank"), ("Disks", Value.int 4)]
  ⟨h.1.trans (by decide), h.2.2.2 _⟩

/-- C14 at a formatter in JSON mode whose writer fails every write: `Print` returns
the error of the write, while `PrintSuccess`, `PrintError` and `PrintTable`, which call
it, write nothing and have no error to return; `PrintKeyValue` returns the error. -/
theorem print_error_dropped :
    (Formatter.Print ⟨FormatJSON, Writer.failing noSpace⟩
        (Data.map [("status", "success"), ("message", "done")])) = ([], some noSpace)
      ∧ Formatter.PrintSuccess ⟨FormatJSON, Writer.failing noSpace⟩ "done" = []
      ∧ Formatter.PrintError ⟨FormatJSON, Writer.failing noSpace⟩ "boom" = []
      ∧ (Formatter.Print ⟨FormatJSON, Writer.failing noSpace⟩
          (Data.maps [[("Name", "plex")]])) = ([], some noSpace)
      ∧ Formatter.PrintTable ⟨FormatJSON, Writer.failing noSpace⟩ ["Name"] [["plex"]] = []
      ∧ Formatter.PrintKeyValue ⟨FormatJSON, Writer.failing noSpace⟩
          [("Name", Value.str "tank")] = ([], some noSpace) := by
  decide

/-- C15. Colour gating: with the colour state disabled `Colorize` returns the text
unchanged for every text and every style, and so do `Red`, `Green`, `Yellow`, `Blue`,
`Cyan`, `Gray`, `BoldRed`, `BoldGreen` and `BoldYellow`. -/
theorem Colorize_disabled (text style : String) :
    Colorize false text style = text
      ∧ Red false text = text ∧ Green false text = text ∧ Yellow false text = text
      ∧ Blue false text = text ∧ Cyan false text = text ∧ Gray false text = text
      ∧ BoldRed false text = text ∧ BoldGreen false text = text
      ∧ BoldYellow false text = text := by
  simp [Colorize, Red, Green, Yellow, Blue, Cyan, Gray, BoldRed, BoldGreen, BoldYellow]

/-- C16 as stated fails: `disk_ok` is none of the listed states, and with colours
enabled `ColorizeState` wraps its upper case in the green style. -/
theorem ColorizeState_counterexample :
    strings.asciiToUpper "disk_ok" = "DISK_OK"
      ∧ "DISK_OK" ∉ ["STARTED", "RUNNING", "UP", "ONLINE", "STOPPED", "DOWN", "OFFLINE",
          "EXITED", "PAUSED", "STARTING", "STOPPING"]
      ∧ ColorizeState strings.asciiToUpper true "disk_ok" = "\x1b[32mDISK_OK\x1b[0m"
      ∧ ColorizeState strings.asciiToUpper true "disk_ok" ≠ "DISK_OK" := by
  decide

set_option maxRecDepth 100000 in
/-- C16, amended. Lifecycle-state colouring: with colours enabled `ColorizeState`
returns the upper-cased state wrapped in the green style when it is one of STARTED,
RUNNING, UP, ONLINE, DISK_OK, GOOD, HEALTHY; in the red style when it is one of
STOPPED, DOWN, OFFLINE, EXITED, DISK_DSBL, DISK_INVALID, DISK_WRONG, ERROR, FAILED; in
the yellow style when it is one of PAUSED, STARTING, STOPPING, WARNING, DISK_NP; and
the upper-cased state itself in every other case. -/
theorem ColorizeState_enabled (toUpper : String → String) (s : String) :
    (toUpper s ∈ ["STARTED", "RUNNING", "UP", "ONLINE", "DISK_OK", "GOOD", "HEALTHY"] →
        ColorizeState toUpper true s = ColorGreen ++ toUpper s ++ ColorReset)
      ∧ (toUpper s ∈ ["STOPPED", "DOWN", "OFFLINE", "EXITED", "DISK_DSBL", "DISK_INVALID",
            "DISK_WRONG", "ERROR", "FAILED"] →
          ColorizeState toUpper true s = ColorRed ++ toUpper s ++ ColorReset)
      ∧ (toUpper s ∈ ["PAUSED", "STARTING", "STOPPING", "WARNING", "DISK_NP"] →
          ColorizeState toUpper true s = ColorYellow ++ toUpper s ++ ColorReset)
      ∧ (toUpper s ∉ ["STARTED", "RUNNING", "UP", "ONLINE", "DISK_OK", "GOOD", "HEALTHY",
            "STOPPED", "DOWN", "OFFLINE", "EXITED", "DISK_DSBL", "DISK_INVALID",
            "DISK_WRONG", "ERROR", "FAILED", "PAUSED", "STARTING", "STOPPING", "WARNING",
            "DISK_NP"] →
          ColorizeState toUpper true s = toUpper s) := by
  simp only [ColorizeState]
  generalize toUpper s = u
  refine ⟨?_, ?_, ?_, ?_⟩
  · intro h
    simp only [List.mem_cons, List.mem_singleton, List.not_mem_nil, or_false] at h
    rcases h with rfl | rfl | rfl | rfl | rfl | rfl | rfl <;> decide
  · intro h
    simp only [List.mem_cons, List.mem_singleton, List.not_mem_nil, or_false] at h
    rcases h with rfl | rfl | rfl | rfl | rfl | rfl | rfl | rfl | rfl <;> decide
  · intro h
    simp only [List.mem_cons, List.mem_singleton, List.not_mem_nil, or_false] at h
    rcases h with rfl | rfl | rfl | rfl | rfl <;> decide
  · intro h
    simp only [List.mem_cons, List.mem_singleton, List.not_mem_nil, or_false, not_or] at h
    simp [h]

/-- C16, amended, at the states `running`, `exited`, `paused` and `unknown`, under the
upper-casing of the ASCII letters. -/
theorem ColorizeState_enabled_witness :
    ColorizeState strings.asciiToUpper true "running" = "\x1b[32mRUNNING\x1b[0m"
      ∧ ColorizeState strings.asciiToUpper true "exited" = "\x1b[31mEXITED\x1b[0m"
      ∧ ColorizeState strings.asciiToUpper true "paused" = "\x1b[33mPAUSED\x1b[0m"
      ∧ ColorizeState strings.asciiToUpper true "unknown" = "UNKNOWN" :=
  ⟨((ColorizeState_enabled strings.asciiToUpper "running").1 (by decide)).trans (by decide),
    ((ColorizeState_enabled strings.asciiToUpper "exited").2.1 (by decide)).trans
      (by decide),
    ((ColorizeState_enabled strings.asciiToUpper "paused").2.2.1 (by decide)).trans
      (by decide),
    ((ColorizeState_enabled strings.asciiToUpper "unknown").2.2.2 (by decide)).trans
      (by decide)⟩

/-! ## The colour engine -/

theorem wrapped_ne (a b text : String) (h : a.data ≠ b.data)
    (hlen : a.data.length = b.data.length) :
    a ++ text ++ ColorReset ≠ b ++ text ++ ColorReset := by
  intro heq
  have hd := congrArg String.data heq
  simp only [String.data_append, List.append_assoc] at hd
  exact h (List.append_inj_left hd hlen)

/-- C17 as stated fails: in the polarity where high is good, 40 and 60 lie below both
75 and 90 and get the red and the yellow style, and 80 and 95 lie in [75, 90) and
above 90 and both get the green style. -/
theorem ColorizePercentage_counterexample :
    (Float64.finite 40).lt 75 = true ∧ (Float64.finite 60).lt 75 = true
      ∧ ColorizePercentage true "40.0%" (Float64.finite 40) true = "\x1b[31m40.0%\x1b[0m"
      ∧ ColorizePercentage true "60.0%" (Float64.finite 60) true = "\x1b[33m60.0%\x1b[0m"
      ∧ (Float64.finite 80).ge 75 = true ∧ (Float64.finite 80).lt 90 = true
      ∧ (Float64.finite 95).ge 90 = true
      ∧ ColorizePercentage true "80.0%" (Float64.finite 80) true = "\x1b[32m80.0%\x1b[0m"
      ∧ ColorizePercentage true "95.0%" (Float64.finite 95) true = "\x1b[32m95.0%\x1b[0m" := by
  decide

/-- C17, amended. Percentage colouring thresholds, colours enabled: where high is bad
the style is red at or above 90, yellow at or above 75 and below 90, and green
otherwise; where high is good the thresholds are 75 and 50: green at or above 75,
yellow at or above 50 and below 75, and red otherwise. The three styles are pairwise
different. -/
theorem ColorizePercentage_thresholds (text : String) (p : Float64) :
    (p.ge 90 = true →
        ColorizePercentage true text p false = ColorRed ++ text ++ ColorReset)
      ∧ (p.ge 75 = true → p.ge 90 = false →
          ColorizePercentage true text p false = ColorYellow ++ text ++ ColorReset)
      ∧ (p.ge 75 = false →
          ColorizePercentage true text p false = ColorGreen ++ text ++ ColorReset)
      ∧ (p.ge 75 = true →
          ColorizePercentage true text p true = ColorGreen ++ text ++ ColorReset)
      ∧ (p.ge 50 = true → p.ge 75 = false →
          ColorizePercentage true text p true = ColorYellow ++ text ++ ColorReset)
      ∧ (p.ge 50 = false →
          ColorizePercentage true text p true = ColorRed ++ text ++ ColorReset)
      ∧ ColorRed ++ text ++ ColorReset ≠ ColorYellow ++ text ++ ColorReset
      ∧ ColorRed ++ text ++ ColorReset ≠ ColorGreen ++ text ++ ColorReset
      ∧ ColorYellow ++ text ++ ColorReset ≠ ColorGreen ++ text ++ ColorReset := by
  have h9075 : p.ge 90 = true → p.ge 75 = true := by
    cases p <;> simp [Float64.ge]
    intro h
    linarith
  have h7550 : p.ge 75 = true → p.ge 50 = true := by
    cases p <;> simp [Float64.ge]
    intro h
    linarith
  have hr : ColorRed ≠ "" := by decide
  have hy : ColorYellow ≠ "" := by decide
  have hg : ColorGreen ≠ "" := by decide
  refine ⟨?_, ?_, ?_, ?_, ?_, ?_, wrapped_ne _ _ _ (by decide) (by decide),
    wrapped_ne _ _ _ (by decide) (by decide), wrapped_ne _ _ _ (by decide) (by decide)⟩
  · intro h
    simp [ColorizePercentage, h, Red, Colorize, hr]
  · intro h1 h2
    simp [ColorizePercentage, h1, h2, Yellow, Colorize, hy]
  · intro h
    have h2 : p.ge 90 = false := by
      cases h90 : p.ge 90
      · rfl
      · rw [h9075 h90] at h
        cases h
    simp [ColorizePercentage, h, h2, Green, Colorize, hg]
  · intro h
    simp [ColorizePercentage, h, Green, Colorize, hg]
  · intro h1 h2
    simp [ColorizePercentage, h1, h2, Yellow, Colorize, hy]
  · intro h
    have h2 : p.ge 75 = false := by
      cases h75 : p.ge 75
      · rfl
      · rw [h7550 h75] at h
        cases h
    simp [ColorizePercentage, h, h2, Red, Colorize, hr]

/-- C17, amended, at 95, 80 and 10 where high is bad and at 80, 60 and 40 where high
is good. -/
theorem ColorizePercentage_thresholds_witness :
    ColorizePercentage true "95.0%" (Float64.finite 95) false = "\x1b[31m95.0%\x1b[0m"
      ∧ ColorizePercentage true "80.0%" (Float64.finite 80) false = "\x1b[33m80.0%\x1b[0m"
      ∧ ColorizePercentage true "10.0%" (Float64.finite 10) false = "\x1b[32m10.0%\x1b[0m"
      ∧ ColorizePercentage true "80.0%" (Float64.finite 80) true = "\x1b[32m80.0%\x1b[0m"
      ∧ ColorizePercentage true "60.0%" (Float64.finite 60) true = "\x1b[33m60.0%\x1b[0m"
      ∧ ColorizePercentage true "40.0%" (Float64.finite 40) true = "\x1b[31m40.0%\x1b[0m" :=
  ⟨((ColorizePercentage_thresholds "95.0%" (Float64.finite 95)).1 (by decide)).trans
      (by decide),
    ((ColorizePercentage_thresholds "80.0%" (Float64.finite 80)).2.1 (by decide)
      (by decide)).trans (by decide),
    ((ColorizePercentage_thresholds "10.0%" (Float64.finite 10)).2.2.1 (by decide)).trans
      (by decide),
    ((ColorizePercentage_thresholds "80.0%" (Float64.finite 80)).2.2.2.1 (by decide)).trans
      (by decide),
    ((ColorizePercentage_thresholds "60.0%" (Float64.finite 60)).2.2.2.2.1 (by decide)
      (by decide)).trans (by decide),
    ((ColorizePercentage_thresholds "40.0%" (Float64.finite 40)).2.2.2.2.2.1
      (by decide)).trans (by decide)⟩

/-- C18. Temperature colouring: `ColorizeTemperature` applies the blue style below 40,
the cyan style from 40 to below 50, the yellow style from 50 to below 60 and the red
style at or above 60, and always one of these four. -/
theorem ColorizeTemperature_thresholds (colorsEnabled : Bool) (text : String)
    (t : Float64) :
    (t.lt 40 = true → ColorizeTemperature colorsEnabled text t = Blue colorsEnabled text)
      ∧ (t.ge 40 = true → t.lt 50 = true →
          ColorizeTemperature colorsEnabled text t = Cyan colorsEnabled text)
      ∧ (t.ge 50 = true → t.lt 60 = true →
          ColorizeTemperature colorsEnabled text t = Yellow colorsEnabled text)
      ∧ (t.ge 60 = true →
          ColorizeTemperature colorsEnabled text t = Red colorsEnabled text)
      ∧ (ColorizeTemperature colorsEnabled text t = Blue colorsEnabled text
          ∨ ColorizeTemperature colorsEnabled text t = Cyan colorsEnabled text
          ∨ ColorizeTemperature colorsEnabled text t = Yellow colorsEnabled text
          ∨ ColorizeTemperature colorsEnabled text t = Red colorsEnabled text) := by
  have hlt : ∀ a b : ℚ, a ≤ b → t.lt a = true → t.ge b = false := by
    intro a b hab
    cases t <;> simp [Float64.ge, Float64.lt]
    intro h
    linarith
  refine ⟨?_, ?_, ?_, ?_, ?_⟩
  · intro h
    simp [ColorizeTemperature, hlt 40 60 (by norm_num) h, hlt 40 50 (by norm_num) h,
      hlt 40 40 (by norm_num) h]
  · intro h1 h2
    simp [ColorizeTemperature, hlt 50 60 (by norm_num) h2, hlt 50 50 (by norm_num) h2, h1]
  · intro h1 h2
    simp [ColorizeTemperature, hlt 60 60 (by norm_num) h2, h1]
  · intro h
    simp [ColorizeTemperature, h]
  · unfold ColorizeTemperature
    split
    · exact Or.inr (Or.inr (Or.inr rfl))
    · split
      · exact Or.inr (Or.inr (Or.inl rfl))
      · split
        · exact Or.inr (Or.inl rfl)
        · exact Or.inl rfl

/-- C18 at 35, 45, 55 and 65 degrees, colours enabled. -/
theorem ColorizeTemperature_thresholds_witness :
    ColorizeTemperature true "35.0°C" (Float64.finite 35) = "\x1b[34m35.0°C\x1b[0m"
      ∧ ColorizeTemperature true "45.0°C" (Float64.finite 45) = "\x1b[36m45.0°C\x1b[0m"
      ∧ ColorizeTemperature true "55.0°C" (Float64.finite 55) = "\x1b[33m55.0°C\x1b[0m"
      ∧ ColorizeTemperature true "65.0°C" (Float64.finite 65) = "\x1b[31m65.0°C\x1b[0m" :=
  ⟨((ColorizeTemperature_thresholds true "35.0°C" (Float64.finite 35)).1
      (by decide)).trans (by decide),
    ((ColorizeTemperature_thresholds true "45.0°C" (Float64.finite 45)).2.1 (by decide)
      (by decide)).trans (by decide),
    ((ColorizeTemperature_thresholds true "55.0°C" (Float64.finite 55)).2.2.1 (by decide)
      (by decide)).trans (by decide),
    ((ColorizeTemperature_thresholds true "65.0°C" (Float64.finite 65)).2.2.2.1
      (by decide)).trans (by decide)⟩

/-! ## The refresh scheduler -/

theorem watchLoop_fails_after (fn : Nat → Option Error) (e : Error) (m : Nat) :
    ∀ (n : Nat) (fires : List SelectCase),
      (∀ j < m + 1, fires[j]? = some SelectCase.tick) →
      (∀ j < m, fn (n + j) = none) → fn (n + m) = some e →
      (watchLoop fn n fires).2 = WatchEnd.returned (some e)
        ∧ invocations (watchLoop fn n fires).1 = m + 1 := by
  induction m with
  | zero =>
    intro n fires hticks _ herr
    cases fires with
    | nil => simpa using hticks 0 (by omega)
    | cons c rest =>
      have hc : c = SelectCase.tick := by simpa using hticks 0 (by omega)
      subst hc
      simp only [Nat.add_zero] at herr
      simp [watchLoop, herr, invocations]
  | succ m ih =>
    intro n fires hticks hok herr
    cases fires with
    | nil => simpa using hticks 0 (by omega)
    | cons c rest =>
      have hc : c = SelectCase.tick := by simpa using hticks 0 (by omega)
      subst hc
      have h0 : fn n = none := by simpa using hok 0 (by omega)
      have hrec := ih (n + 1) rest
        (fun j hj => by simpa using hticks (j + 1) (by omega))
        (fun j hj => by
          have := hok (j + 1) (by omega)
          rwa [show n + (j + 1) = n + 1 + j by omega] at this)
        (by rwa [show n + (m + 1) = n + 1 + m by omega] at herr)
      simp only [watchLoop, h0]
      refine ⟨hrec.1, ?_⟩
      have := hrec.2
      simp only [invocations] at this ⊢
      simp [this]

/-- C19. Watch immediacy: whatever the interval and the watched function, `Watch`
clears the screen and calls the function before it waits for the first time; and in
every run whose first `select` finds the context done, the function is called exactly
once. -/
theorem Watch_immediate (fires : List SelectCase) (interval : Int)
    (fn : Nat → Option Error) :
    (∃ rest, (Watch fires interval fn).1
        = WatchAction.clearScreen :: WatchAction.call :: rest)
      ∧ (∀ later, invocations (Watch (SelectCase.done :: later) interval fn).1 = 1) := by
  constructor
  · unfold Watch
    cases fn 0 with
    | some err => exact ⟨[], rfl⟩
    | none =>
      simp only
      split
      · exact ⟨[], rfl⟩
      · exact ⟨_, rfl⟩
  · intro later
    unfold Watch
    cases fn 0 with
    | some err => simp [invocations]
    | none =>
      simp only
      split
      · simp [invocations]
      · simp [invocations, watchLoop]

/-- C20. Watch failure aborts the session: when the ticker is valid (or the failure is
that of the first call), the first `k - 1` calls succeed, the `select` fires the tick
`k - 1` times and call `k` returns the error `e`, `Watch` returns `e` and the function
has been called exactly `k` times when the run ends. -/
theorem Watch_failure_aborts (fires : List SelectCase) (interval : Int)
    (fn : Nat → Option Error) (k : Nat) (e : Error)
    (hk : 1 ≤ k) (hint : k = 1 ∨ 0 < interval)
    (hok : ∀ j < k - 1, fn j = none) (herr : fn (k - 1) = some e)
    (hticks : ∀ j < k - 1, fires[j]? = some SelectCase.tick) :
    (Watch fires interval fn).2 = WatchEnd.returned (some e)
      ∧ invocations (Watch fires interval fn).1 = k := by
  rcases Nat.eq_or_lt_of_le hk with h1 | h2
  · subst h1
    simp only [Nat.sub_self] at herr
    simp [Watch, herr, invocations]
  · have hpos : 0 < interval := by
      rcases hint with h | h
      · omega
      · exact h
    have h0 : fn 0 = none := hok 0 (by omega)
    obtain ⟨m, rfl⟩ : ∃ m, k = m + 2 := ⟨k - 2, by omega⟩
    have hloop := watchLoop_fails_after fn e m 1 fires
      (fun j hj => hticks j (by omega))
      (fun j hj => by
        have := hok (j + 1) (by omega)
        rwa [show j + 1 = 1 + j by omega] at this)
      (by rwa [show m + 2 - 1 = 1 + m by omega] at herr)
    have hnot : ¬ interval ≤ 0 := by omega
    simp only [Watch, h0, hnot, if_false]
    refine ⟨hloop.1, ?_⟩
    have := hloop.2
    simp only [invocations] at this ⊢
    simp [this]

/-- C19 at an interval of ten seconds with the context done at the first `select`:
one call, and `Watch` returns without error. -/
theorem Watch_immediate_witness :
    Watch [SelectCase.done] 10000000000 (fun _ => none)
        = ([WatchAction.clearScreen, WatchAction.call, WatchAction.wait],
            WatchEnd.returned none)
      ∧ invocations (Watch [SelectCase.done] 10000000000 (fun _ => none)).1 = 1 :=
  ⟨by decide, (Watch_immediate [SelectCase.done] 10000000000 (fun _ => none)).2 []⟩

/-- C20 at a function whose third call fails, with two ticks before it: `Watch`
returns the error after three calls, whatever fires later. -/
theorem Watch_failure_aborts_witness :
    (Watch [SelectCase.tick, SelectCase.tick, SelectCase.tick, SelectCase.done] 2000000000
        (fun i => if i = 2 then some "timeout" else none)).2
        = WatchEnd.returned (some "timeout")
      ∧ invocations (Watch
          [SelectCase.tick, SelectCase.tick, SelectCase.tick, SelectCase.done] 2000000000
          (fun i => if i = 2 then some "timeout" else none)).1 = 3 :=
  Watch_failure_aborts
    [SelectCase.tick, SelectCase.tick, SelectCase.tick, SelectCase.done] 2000000000
    (fun i => if i = 2 then some "timeout" else none) 3 "timeout" (by decide)
    (Or.inr (by decide))
    (by intro j hj; have : j ≠ 2 := by omega
        simp [this])
    (by simp)
    (by intro j hj
        have : j = 0 ∨ j = 1 := by omega
        rcases this with rfl | rfl <;> rfl)

/-- The row of the table of C6 and C7 is the row `docker ls` builds, with colours
enabled, for the container `plex`. -/
theorem dockerLsRows_plex :
    cmd.dockerLsRows strings.asciiToUpper true [plexContainer] = some [dockerLsRunningRow] := by
  decide

theorem watchLoop_cancelled (fn : Nat → Option Error) (later : List SelectCase)
    (refreshes : Nat) :
    ∀ n : Nat, (∀ j < refreshes, fn (n + j) = none) →
      (watchLoop fn n (List.replicate refreshes SelectCase.tick
          ++ SelectCase.done :: later)).2 = WatchEnd.returned none
        ∧ invocations (watchLoop fn n (List.replicate refreshes SelectCase.tick
          ++ SelectCase.done :: later)).1 = refreshes := by
  induction refreshes with
  | zero =>
    intro n _
    simp [watchLoop, invocations]
  | succ m ih =>
    intro n hok
    have h0 : fn n = none := by simpa using hok 0 (by omega)
    have hrec := ih (n + 1) (fun j hj => by
      have := hok (j + 1) (by omega)
      rwa [show n + (j + 1) = n + 1 + j by omega] at this)
    simp only [List.replicate_succ, List.cons_append, watchLoop, h0]
    refine ⟨hrec.1, ?_⟩
    have := hrec.2
    simp only [invocations] at this ⊢
    simp [this]

/-- C21. Watch cancellation is success: on a valid ticker interval, when the immediate
call and the `refreshes` calls after it succeed and the next `select` finds the
context done, `Watch` returns without error, and the function has been called
`refreshes + 1` times when the run ends, whatever would fire later. -/
theorem Watch_cancel_is_success (interval : Int) (hpos : 0 < interval)
    (fn : Nat → Option Error) (refreshes : Nat) (later : List SelectCase)
    (hok : ∀ j ≤ refreshes, fn j = none) :
    (Watch (List.replicate refreshes SelectCase.tick ++ SelectCase.done :: later)
        interval fn).2 = WatchEnd.returned none
      ∧ invocations (Watch (List.replicate refreshes SelectCase.tick
          ++ SelectCase.done :: later) interval fn).1 = refreshes + 1 := by
  have h0 : fn 0 = none := hok 0 (by omega)
  have hnot : ¬ interval ≤ 0 := by omega
  have hloop := watchLoop_cancelled fn later refreshes 1 (fun j hj => by
    have := hok (j + 1) (by omega)
    rwa [show j + 1 = 1 + j by omega] at this)
  simp only [Watch, h0, hnot, if_false]
  refine ⟨hloop.1, ?_⟩
  have := hloop.2
  simp only [invocations] at this ⊢
  simp [this]

/-- C21 at two refreshes followed by the cancellation, interval two seconds. -/
theorem Watch_cancel_is_success_witness :
    (Watch [SelectCase.tick, SelectCase.tick, SelectCase.done, SelectCase.tick] 2000000000
        (fun _ => none)).2 = WatchEnd.returned none
      ∧ invocations (Watch
          [SelectCase.tick, SelectCase.tick, SelectCase.done, SelectCase.tick] 2000000000
          (fun _ => none)).1 = 3 :=
  Watch_cancel_is_success 2000000000 (by decide) (fun _ => none) 2 [SelectCase.tick]
    (fun _ _ => rfl)

/-- With an interval that is not positive, `Watch` panics in `time.NewTicker` after
the first call has succeeded, before it waits. -/
theorem Watch_panics_without_interval (fires : List SelectCase) (interval : Int)
    (hint : interval ≤ 0) (fn : Nat → Option Error) (h0 : fn 0 = none) :
    Watch fires interval fn
      = ([WatchAction.clearScreen, WatchAction.call],
          WatchEnd.panicked "non-positive interval for NewTicker") := by
  simp [Watch, h0, hint]

/-! ## Byte sizes -/

theorem wrapInt64_of_nonneg (x : Int) (h0 : 0 ≤ x) (h1 : x < 2 ^ 63) : wrapInt64 x = x := by
  unfold wrapInt64
  norm_num at h1 ⊢
  omega

theorem formatBytesLoop_spec (j : Nat) :
    ∀ (n div : Int) (exp : Nat), (1024 : Int) ^ j ≤ n → n < 1024 ^ (j + 1) → 0 ≤ div →
      div * 1024 ^ j < 2 ^ 63 →
      formatBytesLoop n div exp = (div * 1024 ^ j, exp + j) := by
  induction j with
  | zero =>
    intro n div exp _ hhi _ _
    rw [formatBytesLoop]
    have : ¬ (1024 : Int) ≤ n := by
      norm_num at hhi
      omega
    simp [this]
  | succ j ih =>
    intro n div exp hlo hhi hdiv hbound
    have hpow : (1 : Int) ≤ 1024 ^ j := one_le_pow₀ (by norm_num)
    have h1024 : (1024 : Int) ≤ n := by
      have : (1024 : Int) ^ (j + 1) = 1024 ^ j * 1024 := pow_succ _ _
      nlinarith
    have hn0 : (0 : Int) ≤ n := by omega
    have hwrap : wrapInt64 (div * 1024) = div * 1024 := by
      apply wrapInt64_of_nonneg
      · nlinarith
      · have : (1024 : Int) ^ (j + 1) = 1024 ^ j * 1024 := pow_succ _ _
        nlinarith
    rw [formatBytesLoop, if_pos h1024, hwrap, Int.tdiv_eq_ediv hn0 (by norm_num)]
    have hq1 : (1024 : Int) ^ j ≤ n / 1024 := by
      rw [Int.le_ediv_iff_mul_le (by norm_num)]
      rw [pow_succ] at hlo
      exact hlo
    have hq2 : n / 1024 < (1024 : Int) ^ (j + 1) := by
      rw [Int.ediv_lt_iff_lt_mul (by norm_num)]
      rw [pow_succ] at hhi
      exact hhi
    rw [ih (n / 1024) (div * 1024) (exp + 1) hq1 hq2 (by nlinarith)
      (by rw [pow_succ] at hbound; nlinarith)]
    rw [pow_succ]
    congr 1
    · ring
    · omega

theorem formatBytesLoop_of_range (b : Int) (h1 : 1024 ≤ b) (h2 : b < 2 ^ 63) :
    ∃ exp : Nat, exp ≤ 5
      ∧ formatBytesLoop (b.tdiv 1024) 1024 0 = ((1024 : Int) ^ (exp + 1), exp)
      ∧ (1024 : Int) ^ (exp + 1) ≤ b ∧ b < 1024 * 1024 ^ (exp + 1) := by
  have hb0 : (0 : Int) ≤ b := by omega
  rw [Int.tdiv_eq_ediv hb0 (by norm_num)]
  obtain ⟨m, hm⟩ : ∃ m : Nat, b / 1024 = (m : Int) :=
    ⟨(b / 1024).toNat, (Int.toNat_of_nonneg (Int.ediv_nonneg hb0 (by norm_num))).symm⟩
  have hm1 : 1 ≤ m := by omega
  have hm2 : m < 2 ^ 53 := by
    norm_num at h2 ⊢
    omega
  have hlog1 : 1024 ^ Nat.log 1024 m ≤ m := Nat.pow_log_le_self 1024 (by omega)
  have hlog2 : m < 1024 ^ (Nat.log 1024 m + 1) := Nat.lt_pow_succ_log_self (by norm_num) m
  have hj : Nat.log 1024 m ≤ 5 := by
    by_contra hcon
    have h6 : 6 ≤ Nat.log 1024 m := by omega
    have : 1024 ^ 6 ≤ 1024 ^ Nat.log 1024 m := Nat.pow_le_pow_right (by norm_num) h6
    norm_num at this hm2
    omega
  generalize Nat.log 1024 m = j at hlog1 hlog2 hj
  have hlog1' : (1024 : Int) ^ j ≤ (m : Int) := by exact_mod_cast hlog1
  have hlog2' : (m : Int) < (1024 : Int) ^ (j + 1) := by exact_mod_cast hlog2
  have hbound : (1024 : Int) * 1024 ^ j < 2 ^ 63 := by
    have : (1024 : Int) ^ j ≤ 1024 ^ 5 := pow_le_pow_right₀ (by norm_num) hj
    norm_num at this ⊢
    omega
  refine ⟨j, hj, ?_, ?_, ?_⟩
  · rw [hm, formatBytesLoop_spec j m 1024 0 hlog1' hlog2' (by norm_num) hbound]
    congr 1
    · rw [pow_succ]; ring
    · omega
  · have hdiv : 1024 * (b / 1024) ≤ b := Int.mul_ediv_self_le (by norm_num)
    rw [pow_succ]
    rw [hm] at hdiv
    nlinarith
  · have hlt : b < 1024 * (b / 1024) + 1024 := by
      have := Int.lt_ediv_add_one_mul_self b (show (0 : Int) < 1024 by norm_num)
      linarith
    rw [hm] at hlt
    have : (m : Int) + 1 ≤ 1024 ^ (j + 1) := by omega
    nlinarith

theorem formatBytesLoop_pow (k : Nat) (h1 : 1 ≤ k) (h6 : k ≤ 6) :
    formatBytesLoop (((1024 : Int) ^ k).tdiv 1024) 1024 0 = ((1024 : Int) ^ k, k - 1) := by
  obtain ⟨j, rfl⟩ : ∃ j, k = j + 1 := ⟨k - 1, by omega⟩
  have hj : j ≤ 5 := by omega
  have hpos : (0 : Int) ≤ 1024 ^ (j + 1) := by positivity
  have hdiv : ((1024 : Int) ^ (j + 1)).tdiv 1024 = 1024 ^ j := by
    rw [Int.tdiv_eq_ediv hpos (by norm_num), pow_succ]
    exact Int.mul_ediv_cancel _ (by norm_num)
  have hbound : (1024 : Int) * 1024 ^ j < 2 ^ 63 := by
    have : (1024 : Int) ^ j ≤ 1024 ^ 5 := pow_le_pow_right₀ (by norm_num) hj
    norm_num at this ⊢
    omega
  rw [hdiv, formatBytesLoop_spec j (1024 ^ j) 1024 0 (le_refl _)
    (pow_lt_pow_right₀ (by norm_num) (by omega)) (by norm_num) hbound]
  congr 1
  · rw [pow_succ]; ring
  · omega

/-- C22. Byte-size formatting: for `0 <= b < 1024` the result is the decimal digits of
`b` followed by ` B`, so 512 gives `512 B`; for `k` from 1 to 6 the result for
`1024 ^ k` is the text of the quotient, `1.0`, a blank, the letter number `k` of
`KMGTPE` and `iB`, so `2 ^ 30` gives `1.0 GiB`. -/
theorem FormatBytes_examples (sprintf : Int → Int → String) :
    (∀ b : Int, 0 ≤ b → b < 1024 →
        FormatBytes sprintf b = some (Nat.repr b.toNat ++ " B"))
      ∧ FormatBytes sprintf 512 = some "512 B"
      ∧ (∀ k : Nat, 1 ≤ k → k ≤ 6 → sprintf (1024 ^ k) (1024 ^ k) = "1.0" →
          ∃ letter, "KMGTPE".data.get? (k - 1) = some letter
            ∧ FormatBytes sprintf (1024 ^ k)
                = some ("1.0 " ++ String.singleton letter ++ "iB"))
      ∧ (sprintf (2 ^ 30) (2 ^ 30) = "1.0" →
          FormatBytes sprintf (2 ^ 30) = some "1.0 GiB") := by
  have hsmall : ∀ b : Int, 0 ≤ b → b < 1024 →
      FormatBytes sprintf b = some (Nat.repr b.toNat ++ " B") := by
    intro b h0 h1
    obtain ⟨m, rfl⟩ : ∃ m : Nat, b = (m : Int) := ⟨b.toNat, (Int.toNat_of_nonneg h0).symm⟩
    simp only [FormatBytes, h1, if_true, Int.toNat_ofNat]
    rfl
  have hpow : ∀ k : Nat, 1 ≤ k → k ≤ 6 → sprintf (1024 ^ k) (1024 ^ k) = "1.0" →
      ∃ letter, "KMGTPE".data.get? (k - 1) = some letter
        ∧ FormatBytes sprintf (1024 ^ k)
            = some ("1.0 " ++ String.singleton letter ++ "iB") := by
    intro k h1 h6 hs
    have hletter : ∃ letter, "KMGTPE".data.get? (k - 1) = some letter := by
      interval_cases k <;> exact ⟨_, rfl⟩
    obtain ⟨letter, hl⟩ := hletter
    refine ⟨letter, hl, ?_⟩
    have hge : ¬ (1024 : Int) ^ k < 1024 := by
      have : (1024 : Int) ^ 1 ≤ 1024 ^ k := pow_le_pow_right₀ (by norm_num) h1
      norm_num at this
      omega
    simp only [FormatBytes, hge, if_false, formatBytesLoop_pow k h1 h6, hl, hs]
    rfl
  refine ⟨hsmall, ?_, hpow, ?_⟩
  · exact (hsmall 512 (by norm_num) (by norm_num)).trans (by decide)
  · intro hs
    have h3 := hpow 3 (by norm_num) (by norm_num)
    rw [show (1024 : Int) ^ 3 = 2 ^ 30 by norm_num] at h3
    obtain ⟨letter, hl, hf⟩ := h3 hs
    have : letter = 'G' := by
      have h : "KMGTPE".data.get? (3 - 1) = some 'G' := rfl
      rw [h] at hl
      exact (Option.some.inj hl).symm
    subst this
    exact hf.trans (by decide)

/-- C22 at 512, at 1536 and at `2 ^ 30`, with the text of the exact quotient. -/
theorem FormatBytes_examples_witness :
    FormatBytes exactTenths 512 = some "512 B"
      ∧ FormatBytes exactTenths (2 ^ 30) = some "1.0 GiB"
      ∧ (∃ letter, "KMGTPE".data.get? (6 - 1) = some letter
          ∧ FormatBytes exactTenths (1024 ^ 6)
              = some ("1.0 " ++ String.singleton letter ++ "iB")) :=
  ⟨(FormatBytes_examples exactTenths).2.1,
    (FormatBytes_examples exactTenths).2.2.2 (by decide),
    (FormatBytes_examples exactTenths).2.2.1 6 (by decide) (by decide) (by decide)⟩

/-- C27. `FormatBytes` unit selection: for every `int64` value below 1024, a negative
one included, the bytes branch is taken; for every `int64` value from 1024 on the loop
ends with `exp` at most 5 and `div = 1024 ^ (exp + 1)`, a value below `2 ^ 63` reached
without overflow, with `div <= b < 1024 * div`, so that indexing `KMGTPE` succeeds and
a text is returned. -/
theorem FormatBytes_unit_selection (sprintf : Int → Int → String) (b : Int)
    (hhi : b < 2 ^ 63) :
    (b < 1024 → FormatBytes sprintf b = some (toString b ++ " B"))
      ∧ (1024 ≤ b → ∃ (exp : Nat) (letter : Char),
          exp ≤ 5
            ∧ formatBytesLoop (b.tdiv 1024) 1024 0 = ((1024 : Int) ^ (exp + 1), exp)
            ∧ (1024 : Int) ^ (exp + 1) < 2 ^ 63
            ∧ (1024 : Int) ^ (exp + 1) ≤ b ∧ b < 1024 * 1024 ^ (exp + 1)
            ∧ "KMGTPE".data.get? exp = some letter
            ∧ FormatBytes sprintf b
                = some (sprintf b (1024 ^ (exp + 1)) ++ " " ++ String.singleton letter
                    ++ "iB")) := by
  constructor
  · intro h
    simp [FormatBytes, h]
  · intro h
    obtain ⟨exp, h5, hloop, hle, hlt⟩ := formatBytesLoop_of_range b h hhi
    have hletter : ∃ letter, "KMGTPE".data.get? exp = some letter := by
      interval_cases exp <;> exact ⟨_, rfl⟩
    obtain ⟨letter, hl⟩ := hletter
    refine ⟨exp, letter, h5, hloop, by omega, hle, hlt, hl, ?_⟩
    have hge : ¬ b < 1024 := by omega
    simp only [FormatBytes, hge, if_false, hloop, hl]

/-- C27 at the largest `int64` value and at a negative value. -/
theorem FormatBytes_unit_selection_witness :
    (∃ (exp : Nat) (letter : Char), exp ≤ 5
        ∧ formatBytesLoop ((9223372036854775807 : Int).tdiv 1024) 1024 0
            = ((1024 : Int) ^ (exp + 1), exp)
        ∧ "KMGTPE".data.get? exp = some letter)
      ∧ FormatBytes exactTenths (-5) = some "-5 B" :=
  ⟨by
      obtain ⟨exp, letter, h5, hloop, -, -, -, hl, -⟩ :=
        (FormatBytes_unit_selection exactTenths 9223372036854775807 (by norm_num)).2
          (by norm_num)
      exact ⟨exp, letter, h5, hloop, hl⟩,
    ((FormatBytes_unit_selection exactTenths (-5) (by norm_num)).1 (by norm_num)).trans
      (by decide)⟩

/-! ## Start-up of the colour state -/

/-- C23. Colour state initialisation: when the initialiser completes, the colour
state is enabled exactly when `NO_COLOR` is not set to a non-empty value and the mode
of standard output has the character-device bit, and disabled in every other case;
and it completes whenever the file information of standard output is available. -/
theorem initColors_enabled_iff (noColor : String) (stdoutStat : Option Nat) :
    (∀ enabled, initColors noColor stdoutStat = some enabled →
        (enabled = true ↔
          noColor = "" ∧ ∃ mode, stdoutStat = some mode ∧ mode &&& ModeCharDevice ≠ 0))
      ∧ (∀ mode, stdoutStat = some mode → ∃ enabled,
          initColors noColor stdoutStat = some enabled) := by
  constructor
  · intro enabled h
    cases stdoutStat with
    | none => simp [initColors] at h
    | some mode =>
      simp only [initColors, Option.some.injEq] at h
      subst h
      by_cases h1 : noColor = "" <;> by_cases h2 : mode &&& ModeCharDevice = 0 <;>
        simp [h1, h2]
  · intro mode h
    subst h
    exact ⟨_, rfl⟩

/-- C23 at a terminal without `NO_COLOR`, at a terminal with `NO_COLOR=1`, and at a
regular file. -/
theorem initColors_enabled_iff_witness :
    initColors "" (some (2 ^ 26 + 2 ^ 21 + 0o620)) = some true
      ∧ initColors "1" (some (2 ^ 26 + 2 ^ 21 + 0o620)) = some false
      ∧ initColors "" (some 0o644) = some false
      ∧ (true = true ↔ ("" : String) = ""
          ∧ ∃ mode, some (2 ^ 26 + 2 ^ 21 + 0o620) = some mode
            ∧ mode &&& ModeCharDevice ≠ 0) :=
  ⟨by decide, by decide, by decide,
    (initColors_enabled_iff "" (some (2 ^ 26 + 2 ^ 21 + 0o620))).1 true (by decide)⟩

/-! ## Slices that panic -/

/-- C24 at the URLs `tower` and the empty URL: they have fewer than 8 bytes, the slice
expression panics and `New` does not complete. -/
theorem client_New_short_url_panics :
    ("tower" : String).utf8ByteSize = 5
      ∧ client.New "tower" "key" = none
      ∧ client.New "" "key" = none
      ∧ client.New "http://" "key" = none := by
  decide

/-- What `New` does on a URL of 8 bytes or more: it completes, keeps a URL that ends
with `/graphql` and appends `/graphql` to any other, so that normalising again changes
nothing. -/
theorem client_New_normalises (serverURL apiKey : String)
    (hlen : 8 ≤ serverURL.utf8ByteSize) :
    ∃ c, client.New serverURL apiKey = some c
      ∧ (∃ front, c.url = front ++ "/graphql")
      ∧ ((∃ front, serverURL = front ++ "/graphql") → c.url = serverURL)
      ∧ ((¬ ∃ front, serverURL = front ++ "/graphql") → c.url = serverURL ++ "/graphql")
      ∧ client.New c.url apiKey = some c := by
  have hsuffix : ∀ u : String, "/graphql".data.isSuffixOf u.data = true ↔
      ∃ front, u = front ++ "/graphql" := by
    intro u
    rw [ List.isSuffixOf_iff_suffix]
    constructor
    · rintro ⟨t, ht⟩
      exact ⟨⟨t⟩, String.ext (by simp [String.data_append, ht])⟩
    · rintro ⟨front, rfl⟩
      exact ⟨front.data, by simp [String.data_append]⟩
  have hbytes : ∀ a b : String, (a ++ b).utf8ByteSize = a.utf8ByteSize + b.utf8ByteSize := by
    intro a b
    obtain ⟨la⟩ := a
    obtain ⟨lb⟩ := b
    show String.utf8ByteSize.go (la ++ lb)
      = String.utf8ByteSize.go la + String.utf8ByteSize.go lb
    induction la with
    | nil => simp [String.utf8ByteSize.go]
    | cons c cs ih =>
      have h1 : String.utf8ByteSize.go (c :: cs ++ lb)
          = String.utf8ByteSize.go (cs ++ lb) + c.utf8Size := rfl
      have h2 : String.utf8ByteSize.go (c :: cs)
          = String.utf8ByteSize.go cs + c.utf8Size := rfl
      rw [h1, h2, ih]
      omega
  have hnot : ¬ serverURL.utf8ByteSize < 8 := by omega
  by_cases hs : "/graphql".data.isSuffixOf serverURL.data = true
  · refine ⟨{ apiKey := apiKey, url := serverURL }, ?_, (hsuffix _).1 hs, fun _ => rfl,
      fun h => absurd ((hsuffix _).1 hs) h, ?_⟩ <;>
      simp [client.New, hnot, hs]
  · have hs2 : "/graphql".data.isSuffixOf (serverURL ++ "/graphql").data = true :=
      (hsuffix _).2 ⟨serverURL, rfl⟩
    have hlen2 : ¬ (serverURL ++ "/graphql").utf8ByteSize < 8 := by
      rw [hbytes]
      omega
    refine ⟨{ apiKey := apiKey, url := serverURL ++ "/graphql" }, ?_, ⟨serverURL, rfl⟩,
      fun h => absurd ((hsuffix _).2 h) hs, fun _ => rfl, ?_⟩
    · simp [client.New, hnot, hs]
    · simp [client.New, hlen2, hs2]

/-- C26 at the keys `abc` and the empty key: they have fewer than 4 bytes, the slice
expression is evaluated before the length is tested, and it panics. -/
theorem maskedKey_short_key_panics :
    utf8Bytes "abc" = [97, 98, 99]
      ∧ cmd.maskedKey (utf8Bytes "abc") = none
      ∧ cmd.maskedKey (utf8Bytes "") = none
      ∧ cmd.maskedKey (utf8Bytes "abcd") = some (utf8Bytes "***")
      ∧ cmd.maskedKey (utf8Bytes "secretkey1234") = some (utf8Bytes "***1234") := by
  decide

/-- What the masking does on a key of 4 bytes or more: the result is `***` for a key
of fewer than 8 bytes and `***` followed by the last 4 bytes of the key otherwise. -/
theorem maskedKey_of_long_key (apiKey : List UInt8) (h4 : 4 ≤ apiKey.length) :
    (apiKey.length < 8 → cmd.maskedKey apiKey = some cmd.stars)
      ∧ (8 ≤ apiKey.length →
          cmd.maskedKey apiKey = some (cmd.stars ++ apiKey.drop (apiKey.length - 4))) := by
  have hnot : ¬ apiKey.length < 4 := by omega
  constructor
  · intro h
    simp [cmd.maskedKey, hnot, h]
  · intro h
    have h8 : ¬ apiKey.length < 8 := by omega
    simp [cmd.maskedKey, hnot, h8]

set_option maxRecDepth 100000 in
/-- C29 at a listing that holds a running container without names: building the display
name indexes the empty `Names` and panics, in the table output of `docker ls` and of
`docker ps`, in `docker stats` called with an argument, and in `docker logs` when the
container comes before the one looked for. -/
theorem displayName_empty_names_panics :
    cmd.displayName namelessContainer = none
      ∧ cmd.dockerLsRows strings.asciiToUpper true [plexContainer, namelessContainer] = none
      ∧ cmd.dockerLsOutput strings.asciiToUpper true "" ⟨FormatTable, Writer.accepting⟩
          [plexContainer, namelessContainer] = none
      ∧ cmd.runningContainers strings.asciiToLower [plexContainer, namelessContainer]
          = [plexContainer, namelessContainer]
      ∧ cmd.dockerPsOutput strings.asciiToLower Writer.accepting ""
          ⟨FormatTable, Writer.accepting⟩ [plexContainer, namelessContainer] = none
      ∧ cmd.dockerStatsFilter ["plex"] [plexContainer, namelessContainer] = none
      ∧ cmd.dockerLogsLookup [namelessContainer, plexContainer] "plex" = none := by
  decide

set_option maxRecDepth 100000 in
/-- Where a container without names does no harm: `docker ps` drops one that is not
running before it builds the rows, `docker stats` without arguments skips its filter,
and `docker logs` stops at a match that comes first. -/
theorem displayName_empty_names_skipped :
    cmd.dockerPsOutput strings.asciiToLower Writer.accepting ""
          ⟨FormatTable, Writer.accepting⟩ [plexContainer, containerOf "abc999" []]
        = some [Written.text
            ("Name  Image             Status     Autostart\n"
              ++ "----  ----------------  ---------  ---------\n"
              ++ "plex  linuxserver/plex  Up 3 days  ✓        \n")]
      ∧ cmd.dockerPsOutput strings.asciiToLower Writer.accepting ""
          ⟨FormatTable, Writer.accepting⟩ [containerOf "abc999" []]
        = some [Written.text "No running containers found.\n"]
      ∧ cmd.dockerStatsFilter [] [plexContainer, namelessContainer]
        = some [plexContainer, namelessContainer]
      ∧ cmd.dockerLogsLookup [plexContainer, namelessContainer] "plex"
        = some (some plexContainer) := by
  decide

/-- The display name of a container that has a name is its first name without a
leading `/`. -/
theorem displayName_of_names (c : Container) (name : String) (rest : List String)
    (h : c.Names = name :: rest) :
    cmd.displayName c = some (strings.TrimPrefix name "/")
      ∧ cmd.displayName c = canonicalName c := by
  have hlen : ("/" : String).data.length = 1 := rfl
  constructor
  · simp only [cmd.displayName, h, strings.TrimPrefix, hlen]
  · simp only [cmd.displayName, canonicalName, h, strings.TrimPrefix, hlen, List.head?_cons,
      Option.map_some']

/-! ## Soundness of the resolver and the inline lookups -/

theorem find_some_sound {α : Type} {P : α → Prop} {p : α → Bool}
    (hp : ∀ x, p x = true ↔ P x) {l : List α} {c : α} (h : l.find? p = some c) :
    c ∈ l ∧ P c :=
  ⟨List.mem_of_find?_eq_some h, (hp c).1 (List.find?_some h)⟩

theorem containerExactID_some {cs : List Container} {t id : String}
    (h : containerExactID cs t = some id) : ∃ c ∈ cs, c.ID = id ∧ c.ID = t := by
  rw [containerExactID_eq, Option.map_eq_some'] at h
  obtain ⟨c, hc, hid⟩ := h
  have := find_some_sound (P := fun c : Container => c.ID = t) (by simp) hc
  exact ⟨c, this.1, hid, this.2⟩

theorem containerNameMatch_some {cs : List Container} {t id : String}
    (h : containerNameMatch cs t = some id) : ∃ c ∈ cs, c.ID = id ∧ HasName c.Names t := by
  rw [containerNameMatch_eq, Option.map_eq_some'] at h
  obtain ⟨c, hc, hid⟩ := h
  have := find_some_sound (P := fun c : Container => HasName c.Names t)
    (fun c => containerNamesHit_iff c.Names t) hc
  exact ⟨c, this.1, hid, this.2⟩

theorem containerPartialID_some {cs : List Container} {t id : String}
    (h : containerPartialID cs t = some id) : ∃ c ∈ cs, c.ID = id ∧ StartsWith c.ID t := by
  rw [containerPartialID_eq, Option.map_eq_some'] at h
  obtain ⟨c, hc, hid⟩ := h
  have := find_some_sound (P := fun c : Container => StartsWith c.ID t)
    (fun c => hasPrefix_iff_startsWith c.ID t) hc
  exact ⟨c, this.1, hid, this.2⟩

theorem startsWith_self (id : String) : StartsWith id id :=
  ⟨"", by simp⟩

theorem findContainerID_ok_sound {cs : List Container} {t id : String}
    (h : FindContainerID (.ok cs) t = .ok id) :
    ∃ c ∈ cs, c.ID = id ∧ (c.ID = t ∨ HasName c.Names t ∨ StartsWith c.ID t) := by
  unfold FindContainerID at h
  cases h1 : containerExactID cs t with
  | some id1 =>
    simp only [h1, Except.ok.injEq] at h
    subst h
    obtain ⟨c, hc, hid, ht⟩ := containerExactID_some h1
    exact ⟨c, hc, hid, Or.inl ht⟩
  | none =>
    cases h2 : containerNameMatch cs t with
    | some id2 =>
      simp only [h1, h2, Except.ok.injEq] at h
      subst h
      obtain ⟨c, hc, hid, ht⟩ := containerNameMatch_some h2
      exact ⟨c, hc, hid, Or.inr (Or.inl ht)⟩
    | none =>
      cases h3 : containerPartialID cs t with
      | some id3 =>
        simp only [h1, h2, h3, Except.ok.injEq] at h
        subst h
        obtain ⟨c, hc, hid, ht⟩ := containerPartialID_some h3
        exact ⟨c, hc, hid, Or.inr (Or.inr ht)⟩
      | none => simp [h1, h2, h3] at h

theorem findContainerID_ok_of_matches {cs : List Container} {t : String}
    (h : ∃ c ∈ cs, Matches t c) : ∃ id, FindContainerID (.ok cs) t = .ok id := by
  cases h1 : containerExactID cs t with
  | some id1 => exact ⟨id1, by simp [FindContainerID, h1]⟩
  | none =>
    cases h2 : containerNameMatch cs t with
    | some id2 => exact ⟨id2, by simp [FindContainerID, h1, h2]⟩
    | none =>
      cases h3 : containerPartialID cs t with
      | some id3 => exact ⟨id3, by simp [FindContainerID, h1, h2, h3]⟩
      | none =>
        obtain ⟨c, hc, hm⟩ := h
        rcases hm with hm | hm
        · exact absurd hm (containerNameMatch_none.1 h2 c hc)
        · exact absurd hm (containerPartialID_none.1 h3 c hc)

/-- C28. Resolver soundness and the empty token: an ID returned by `FindContainerID`
is the ID of a container of the listing whose ID equals the token, one of whose names
equals it, or whose ID starts with it. For the empty token and a listing that is not
empty and has no empty ID and no empty name, it returns the ID of the first container,
and `StartContainer` and `StopContainer` send their mutation for that container. -/
theorem FindContainerID_sound :
    (∀ (containers : List Container) (token id : String),
        FindContainerID (.ok containers) token = .ok id →
        ∃ c ∈ containers, c.ID = id
          ∧ (c.ID = token ∨ HasName c.Names token ∨ StartsWith c.ID token))
      ∧ (∀ (first : Container) (rest : List Container),
          (∀ c ∈ first :: rest, c.ID ≠ "" ∧ ¬ HasName c.Names "") →
          FindContainerID (.ok (first :: rest)) "" = .ok first.ID
            ∧ ∀ mutate : String → Option Error,
                StartContainer (.ok (first :: rest)) mutate "" = (some first.ID, mutate first.ID)
                  ∧ StopContainer (.ok (first :: rest)) mutate ""
                    = (some first.ID, mutate first.ID)) := by
  refine ⟨fun containers token id h => findContainerID_ok_sound h, ?_⟩
  intro first rest hall
  have h1 : containerExactID (first :: rest) "" = none :=
    containerExactID_none.2 (fun c hc => (hall c hc).1)
  have h2 : containerNameMatch (first :: rest) "" = none :=
    containerNameMatch_none.2 (fun c hc => (hall c hc).2)
  have hpre : strings.HasPrefix first.ID "" = true :=
    (hasPrefix_iff_startsWith _ _).2 ⟨first.ID, by simp⟩
  have h3 : containerPartialID (first :: rest) "" = some first.ID := by
    simp [containerPartialID, hpre]
  have hfind : FindContainerID (.ok (first :: rest)) "" = .ok first.ID := by
    simp [FindContainerID, h1, h2, h3]
  refine ⟨hfind, fun mutate => ?_⟩
  simp [StartContainer, StopContainer, resolveAndMutate, hfind]

/-- C28 at the listing of the specification and the empty token: `abc123`, the first
container, is the one resolved and started. -/
theorem FindContainerID_sound_witness :
    FindContainerID
        (.ok [containerOf "abc123" ["/foo"], containerOf "abc999" ["/abcdef"]]) ""
        = .ok "abc123"
      ∧ StartContainer
          (.ok [containerOf "abc123" ["/foo"], containerOf "abc999" ["/abcdef"]])
          (fun _ => none) "" = (some "abc123", none) := by
  have h := FindContainerID_sound.2 (containerOf "abc123" ["/foo"])
    [containerOf "abc999" ["/abcdef"]]
    (by
      intro c hc
      simp only [List.mem_cons, List.mem_singleton, List.not_mem_nil, or_false] at hc
      rcases hc with rfl | rfl
      · refine ⟨by decide, ?_⟩
        rintro ⟨n, hn, h⟩
        simp only [containerOf, List.mem_singleton] at hn
        subst hn
        revert h
        decide
      · refine ⟨by decide, ?_⟩
        rintro ⟨n, hn, h⟩
        simp only [containerOf, List.mem_singleton] at hn
        subst hn
        revert h
        decide)
  exact ⟨h.1, (h.2 (fun _ => none)).1⟩

theorem inlineTest_iff (token : String) (c : Container) :
    inlineTest token c = true ↔ MatchesInline token c := by
  simp only [inlineTest, MatchesInline, Bool.or_eq_true, decide_eq_true_eq,
    hasPrefix_iff_startsWith]
  constructor
  · rintro ((h | h) | h)
    · exact Or.inl h
    · exact Or.inr (h ▸ startsWith_self c.ID)
    · exact Or.inr h
  · rintro (h | h)
    · exact Or.inl (Or.inl h)
    · exact Or.inr h

theorem matches_of_matchesInline {token : String} {c : Container}
    (h : MatchesInline token c) : Matches token c := by
  rcases h with h | h
  · left
    unfold canonicalName at h
    cases hn : c.Names with
    | nil => simp [hn] at h
    | cons n rest =>
      simp only [hn, List.head?_cons, Option.map_some', Option.some.injEq] at h
      exact ⟨n, by simp, h⟩
  · exact Or.inr h

theorem matchesInline_of_matches {token : String} {c : Container}
    (hone : c.Names.length = 1) (h : Matches token c) : MatchesInline token c := by
  rcases h with h | h
  · left
    obtain ⟨n, hn, hclean⟩ := h
    cases hnames : c.Names with
    | nil => simp [hnames] at hone
    | cons m rest =>
      have hrest : rest = [] := by
        cases rest with
        | nil => rfl
        | cons x xs => simp [hnames] at hone
      subst hrest
      rw [hnames] at hn
      simp only [List.mem_singleton] at hn
      subst hn
      simp [canonicalName, hnames, hclean]
  · exact Or.inr h

theorem dockerLogsLookup_eq (cs : List Container) (hnames : ∀ c ∈ cs, c.Names ≠ [])
    (token : String) :
    cmd.dockerLogsLookup cs token = some (cs.find? (inlineTest token)) := by
  induction cs with
  | nil => rfl
  | cons c rest ih =>
    have hrest := ih (fun d hd => hnames d (List.mem_cons_of_mem _ hd))
    cases hn : c.Names with
    | nil => exact absurd hn (hnames c (by simp))
    | cons n ns =>
      have hd := (displayName_of_names c n ns hn).1
      have hcanon : canonicalName c = some (strings.TrimPrefix n "/") := by
        simp [canonicalName, hn]
      by_cases hq : inlineTest token c = true
      · have hcond : strings.TrimPrefix n "/" = token ∨ c.ID = token
            ∨ strings.HasPrefix c.ID token = true := by
          simp only [inlineTest, hcanon, Bool.or_eq_true, decide_eq_true_eq,
            Option.some.injEq] at hq
          tauto
        simp [cmd.dockerLogsLookup, hd, hcond, List.find?, hq]
      · have hcond : ¬ (strings.TrimPrefix n "/" = token ∨ c.ID = token
            ∨ strings.HasPrefix c.ID token = true) := by
          simp only [inlineTest, hcanon, Bool.or_eq_true, decide_eq_true_eq,
            Option.some.injEq] at hq
          tauto
        have hq' : inlineTest token c = false := by simpa using hq
        simp only [cmd.dockerLogsLookup, hd, hcond, if_false, List.find?, hq', hrest]

theorem statsArgsHit_eq (name : String) (c : Container) (hc : canonicalName c = some name)
    (args : List String) :
    cmd.statsArgsHit name c args = args.any (fun arg => inlineTest arg c) := by
  induction args with
  | nil => rfl
  | cons arg rest ih =>
    by_cases hq : inlineTest arg c = true
    · have hcond : name = arg ∨ c.ID = arg ∨ strings.HasPrefix c.ID arg = true := by
        simp only [inlineTest, hc, Bool.or_eq_true, decide_eq_true_eq,
          Option.some.injEq] at hq
        tauto
      simp [cmd.statsArgsHit, hcond, hq]
    · have hcond : ¬ (name = arg ∨ c.ID = arg ∨ strings.HasPrefix c.ID arg = true) := by
        simp only [inlineTest, hc, Bool.or_eq_true, decide_eq_true_eq,
          Option.some.injEq] at hq
        tauto
      have hq' : inlineTest arg c = false := by simpa using hq
      simp only [cmd.statsArgsHit, hcond, if_false, ih, List.any_cons, hq', Bool.false_or]

theorem dockerStatsFilterLoop_eq (args : List String) (cs : List Container)
    (hnames : ∀ c ∈ cs, c.Names ≠ []) :
    cmd.dockerStatsFilterLoop args cs
      = some (cs.filter (fun c => args.any (fun arg => inlineTest arg c))) := by
  induction cs with
  | nil => rfl
  | cons c rest ih =>
    have hrest := ih (fun d hd => hnames d (List.mem_cons_of_mem _ hd))
    cases hn : c.Names with
    | nil => exact absurd hn (hnames c (by simp))
    | cons n ns =>
      have hd := (displayName_of_names c n ns hn).1
      have hcanon : canonicalName c = some (strings.TrimPrefix n "/") := by
        simp [canonicalName, hn]
      simp only [cmd.dockerStatsFilterLoop, hd, hrest, statsArgsHit_eq _ c hcanon,
        List.filter_cons]

theorem dockerStatsFilter_eq (args : List String) (hargs : args ≠ [])
    (cs : List Container) (hnames : ∀ c ∈ cs, c.Names ≠ []) :
    cmd.dockerStatsFilter args cs
      = some (cs.filter (fun c => args.any (fun arg => inlineTest arg c))) := by
  have hlen : args.length > 0 := List.length_pos.2 hargs
  simp only [cmd.dockerStatsFilter, hlen, if_true, dockerStatsFilterLoop_eq args cs hnames]

theorem dockerStatsFilter_nil (cs : List Container) :
    cmd.dockerStatsFilter [] cs = some cs := by
  simp [cmd.dockerStatsFilter]

theorem find_congr_mem {α : Type} {p q : α → Bool} (l : List α)
    (h : ∀ x ∈ l, p x = q x) : l.find? p = l.find? q := by
  induction l with
  | nil => rfl
  | cons x rest ih =>
    have hx := h x (by simp)
    have hrest := ih (fun y hy => h y (List.mem_cons_of_mem _ hy))
    simp only [List.find?, hx, hrest]

theorem inlineTest_eq_hasPrefix {token : String} {c : Container}
    (hid : c.ID ≠ token) (hname : ¬ HasName c.Names token) :
    inlineTest token c = strings.HasPrefix c.ID token := by
  have hcanon : canonicalName c ≠ some token := by
    intro h
    apply hname
    unfold canonicalName at h
    cases hnm : c.Names with
    | nil => simp [hnm] at h
    | cons n rest =>
      simp only [hnm, List.head?_cons, Option.map_some', Option.some.injEq] at h
      exact ⟨n, by simp, h⟩
  simp [inlineTest, hcanon, hid]

theorem findContainerID_of_tiers_miss {cs : List Container} {t : String}
    (hid : ∀ c ∈ cs, c.ID ≠ t) (hname : ∀ c ∈ cs, ¬ HasName c.Names t) :
    FindContainerID (.ok cs) t
      = match (cs.find? (inlineTest t)).map (fun c => c.ID) with
        | some id => .ok id
        | none => .error ("container not found: " ++ t) := by
  have h1 : containerExactID cs t = none := containerExactID_none.2 hid
  have h2 : containerNameMatch cs t = none := containerNameMatch_none.2 hname
  have h3 : cs.find? (inlineTest t) = cs.find? (fun c => strings.HasPrefix c.ID t) :=
    find_congr_mem cs (fun c hc => inlineTest_eq_hasPrefix (hid c hc) (hname c hc))
  simp only [FindContainerID, h1, h2, containerPartialID_eq, h3]

/-- C25 at three listings whose containers all have a name: the lookup of
`docker logs` and the resolver disagree. In `webDbListing` the token `db` is the name
of the second container and starts the ID of the first: the lookup selects the first,
`web`, where `FindContainerID` returns the ID of `db`, and the filter of `docker stats`
keeps both. For the token `abc` the lookup selects `abc123`, the first container whose
ID starts with the token, where `FindContainerID` returns `abc`, the exact ID. For the
token `b`, the second name of `x1`, the lookup selects nothing where `FindContainerID`
returns `x1`. -/
theorem dockerLogsLookup_diverges_from_resolver :
    (cmd.dockerLogsLookup webDbListing "db").map (fun found => found.map (fun c => c.ID))
        = some (some "db5f01")
      ∧ FindContainerID (.ok webDbListing) "db" = .ok "77aa02"
      ∧ (cmd.dockerStatsFilter ["db"] webDbListing).map (fun kept => kept.map (fun c => c.ID))
        = some ["db5f01", "77aa02"]
      ∧ cmd.dockerLogsLookup [containerOf "abc123" ["/foo"], containerOf "abc" ["/bar"]] "abc"
        = some (some (containerOf "abc123" ["/foo"]))
      ∧ FindContainerID (.ok [containerOf "abc123" ["/foo"], containerOf "abc" ["/bar"]])
          "abc" = .ok "abc"
      ∧ (containerOf "abc123" ["/foo"]).ID ≠ "abc"
      ∧ cmd.dockerLogsLookup [containerOf "x1" ["/a", "/b"]] "b" = some none
      ∧ FindContainerID (.ok [containerOf "x1" ["/a", "/b"]]) "b" = .ok "x1" := by
  refine ⟨by decide, rfl, by decide, by decide, rfl, by decide, by decide, rfl⟩

/-- What the lookup of `docker logs` does on a listing whose containers all have a
name: it does not panic and selects the first container in list order whose canonical
name equals the token or whose ID starts with it. When it selects a container
`FindContainerID` succeeds; the converse holds when every container has exactly one
name; the two IDs are equal when no container has an ID or a name equal to the token,
and when all the containers the token matches share one ID. The filter of
`docker stats`, which runs when there is an argument, keeps the containers that some
argument matches in the same way. -/
theorem dockerLogsLookup_spec (containers : List Container)
    (hnames : ∀ c ∈ containers, c.Names ≠ []) (token : String) :
    ∃ found, cmd.dockerLogsLookup containers token = some found
      ∧ (∀ c, found = some c → FirstWith (MatchesInline token) containers c)
      ∧ (found = none → ∀ c ∈ containers, ¬ MatchesInline token c)
      ∧ (∀ c, found = some c → ∃ id, FindContainerID (.ok containers) token = .ok id)
      ∧ ((∀ c ∈ containers, c.Names.length = 1) →
          ((∃ c, found = some c) ↔ ∃ id, FindContainerID (.ok containers) token = .ok id))
      ∧ (∀ c id, found = some c → FindContainerID (.ok containers) token = .ok id →
          (∀ d ∈ containers, ∀ e ∈ containers,
            Matches token d → Matches token e → d.ID = e.ID) → c.ID = id)
      ∧ (∀ c id, found = some c → FindContainerID (.ok containers) token = .ok id →
          (∀ d ∈ containers, d.ID ≠ token) →
          (∀ d ∈ containers, ¬ HasName d.Names token) → c.ID = id)
      ∧ (∀ args, args ≠ [] → ∃ kept, cmd.dockerStatsFilter args containers = some kept
          ∧ ∀ c, c ∈ kept ↔ c ∈ containers ∧ ∃ arg ∈ args, MatchesInline arg c)
      ∧ cmd.dockerStatsFilter [] containers = some containers := by
  refine ⟨containers.find? (inlineTest token), dockerLogsLookup_eq containers hnames token,
    ?_, ?_, ?_, ?_, ?_, ?_, ?_, dockerStatsFilter_nil containers⟩
  · intro c hc
    obtain ⟨hp, pre, post, hsplit, hpre⟩ := List.find?_eq_some.1 hc
    refine ⟨pre, post, hsplit, (inlineTest_iff token c).1 hp, ?_⟩
    intro d hd hm
    have := hpre d hd
    rw [(inlineTest_iff token d).2 hm] at this
    cases this
  · intro hnone
    exact (find_none_iff (inlineTest_iff token) containers).1 hnone
  · intro c hc
    have := find_some_sound (inlineTest_iff token) hc
    exact findContainerID_ok_of_matches ⟨c, this.1, matches_of_matchesInline this.2⟩
  · intro hone
    constructor
    · rintro ⟨c, hc⟩
      have := find_some_sound (inlineTest_iff token) hc
      exact findContainerID_ok_of_matches ⟨c, this.1, matches_of_matchesInline this.2⟩
    · rintro ⟨id, hid⟩
      obtain ⟨d, hd, -, hm⟩ := findContainerID_ok_sound hid
      have hmatch : Matches token d := by
        rcases hm with h | h | h
        · exact Or.inr (h ▸ startsWith_self d.ID)
        · exact Or.inl h
        · exact Or.inr h
      have hin := matchesInline_of_matches (hone d hd) hmatch
      cases hfind : containers.find? (inlineTest token) with
      | some c => exact ⟨c, rfl⟩
      | none =>
        exact absurd hin ((find_none_iff (inlineTest_iff token) containers).1 hfind d hd)
  · intro c id hc hid hsame
    have hcs := find_some_sound (inlineTest_iff token) hc
    obtain ⟨d, hd, hdid, hm⟩ := findContainerID_ok_sound hid
    have hmatch : Matches token d := by
      rcases hm with h | h | h
      · exact Or.inr (h ▸ startsWith_self d.ID)
      · exact Or.inl h
      · exact Or.inr h
    rw [← hdid]
    exact hsame c hcs.1 d hd (matches_of_matchesInline hcs.2) hmatch
  · intro c id hc hid hmiss1 hmiss2
    rw [findContainerID_of_tiers_miss hmiss1 hmiss2, hc] at hid
    simpa using hid
  · intro args hargs
    refine ⟨_, dockerStatsFilter_eq args hargs containers hnames, ?_⟩
    intro c
    simp only [List.mem_filter, List.any_eq_true, inlineTest_iff]

/-- The lookup of `docker logs` at the listing of the specification and the token
`abc`: the lookup and the resolver both take `abc123`. -/
theorem dockerLogsLookup_spec_witness :
    ∃ found,
      cmd.dockerLogsLookup [containerOf "abc123" ["/foo"], containerOf "abc999" ["/abcdef"]]
        "abc" = some found
      ∧ (∀ c, found = some c → ∃ id, FindContainerID
          (.ok [containerOf "abc123" ["/foo"], containerOf "abc999" ["/abcdef"]]) "abc"
          = .ok id) := by
  obtain ⟨found, h1, -, -, h4, -⟩ := dockerLogsLookup_spec
    [containerOf "abc123" ["/foo"], containerOf "abc999" ["/abcdef"]]
    (by
      intro c hc
      simp only [List.mem_cons, List.mem_singleton, List.not_mem_nil, or_false] at hc
      rcases hc with rfl | rfl <;> simp [containerOf])
    "abc"
  exact ⟨found, h1, h4⟩

/-! ## The configuration -/

theorem serversGet_ne_none_iff (m : config.ServerMap) (k : String) :
    config.serversGet m k ≠ none ↔ ∃ e ∈ m, e.1 = k := by
  induction m with
  | nil => simp [config.serversGet]
  | cons e rest ih =>
    obtain ⟨k', v⟩ := e
    by_cases h : k' = k
    · simp [config.serversGet, h]
    · simp [config.serversGet, h, ih]

theorem serversGet_set (m : config.ServerMap) (n : String) (sv : config.ServerConfig)
    (k : String) :
    config.serversGet (config.serversSet m n sv) k
      = if n = k then some sv else config.serversGet m k := by
  induction m with
  | nil => simp [config.serversSet, config.serversGet]
  | cons e rest ih =>
    obtain ⟨k', v⟩ := e
    by_cases h : k' = n
    · subst h
      by_cases h2 : k' = k <;> simp [config.serversSet, config.serversGet, h2]
    · by_cases h2 : k' = k
      · subst h2
        simp [config.serversSet, config.serversGet, h, Ne.symm h]
      · simp [config.serversSet, config.serversGet, h, h2, ih]

theorem serversSet_ne_nil (m : config.ServerMap) (n : String) (sv : config.ServerConfig) :
    config.serversSet m n sv ≠ [] := by
  cases m with
  | nil => simp [config.serversSet]
  | cons e rest =>
    obtain ⟨k', v⟩ := e
    by_cases h : k' = n <;> simp [config.serversSet, h]

theorem mem_serversSet (m : config.ServerMap) (n : String) (sv : config.ServerConfig)
    (e : String × config.ServerConfig) (he : e ∈ config.serversSet m n sv) :
    e.1 = n ∨ e ∈ m := by
  induction m with
  | nil =>
    simp only [config.serversSet, List.mem_singleton] at he
    exact Or.inl (by rw [he])
  | cons x rest ih =>
    obtain ⟨k', v⟩ := x
    by_cases h : k' = n
    · simp only [config.serversSet, h, if_true, List.mem_cons] at he
      rcases he with he | he
      · exact Or.inl (by rw [he])
      · exact Or.inr (List.mem_cons_of_mem _ he)
    · simp only [config.serversSet, h, if_false, List.mem_cons] at he
      rcases he with he | he
      · exact Or.inr (by rw [he]; simp)
      · rcases ih he with h1 | h1
        · exact Or.inl h1
        · exact Or.inr (List.mem_cons_of_mem _ h1)

theorem firstVisited_some (m : config.ServerMap) (first : Nat) (k : String)
    (h : config.firstVisited m first = some k) : ∃ e ∈ m, e.1 = k := by
  unfold config.firstVisited at h
  rw [Option.map_eq_some'] at h
  obtain ⟨e, he, hk⟩ := h
  rw [List.get?_eq_getElem?] at he
  exact ⟨e, List.getElem?_mem he, hk⟩

theorem firstVisited_none (m : config.ServerMap) (first : Nat)
    (h : config.firstVisited m first = none) : m = [] := by
  unfold config.firstVisited at h
  rw [Option.map_eq_none', List.get?_eq_none] at h
  cases m with
  | nil => rfl
  | cons e rest =>
    have : first % (e :: rest).length < (e :: rest).length :=
      Nat.mod_lt _ (by simp)
    omega

theorem defaultInvariant_of_reachable (c : config.Config) (h : Reachable c) :
    DefaultInvariant c := by
  induction h with
  | empty outputFormat => simp [DefaultInvariant, emptyConfig]
  | set c name url apiKey _ hname ih =>
    obtain ⟨hkeys, hiff, hkey⟩ := ih
    refine ⟨?_, ?_, ?_⟩
    · intro e he
      rcases mem_serversSet _ _ _ e he with h1 | h1
      · rw [h1]; exact hname
      · exact hkeys e h1
    · simp only [config.Config.SetServer]
      constructor
      · intro hd
        by_cases h0 : c.DefaultServer = ""
        · simp [h0] at hd
          exact absurd hd hname
        · simp [h0] at hd
      · intro hs
        exact absurd hs (serversSet_ne_nil _ _ _)
    · intro _
      simp only [config.Config.SetServer]
      by_cases h0 : c.DefaultServer = ""
      · simp [h0, serversGet_set]
      · simp only [h0, if_false, serversGet_set]
        split
        · simp
        · exact hkey h0
  | remove c name first _ hname ih =>
    obtain ⟨hkeys, hiff, hkey⟩ := ih
    unfold config.Config.RemoveServer
    cases hget : config.serversGet c.Servers name with
    | none => exact ⟨hkeys, hiff, hkey⟩
    | some sv =>
      have hkeys' : ∀ e ∈ config.serversDelete c.Servers name, e.1 ≠ "" := by
        intro e he
        exact hkeys e (List.mem_filter.1 he).1
      have hne : c.Servers ≠ [] := by
        intro h0
        rw [h0] at hget
        simp [config.serversGet] at hget
      have hd0 : c.DefaultServer ≠ "" := fun h0 => hne (hiff.1 h0)
      by_cases hdef : c.DefaultServer = name
      · simp only [hdef, if_true]
        cases hfirst : config.firstVisited (config.serversDelete c.Servers name) first with
        | none =>
          have hnil := firstVisited_none _ _ hfirst
          exact ⟨hkeys', by simp [hnil], by simp⟩
        | some k =>
          obtain ⟨e, he, hk⟩ := firstVisited_some _ _ _ hfirst
          have hk0 : k ≠ "" := hk ▸ hkeys' e he
          refine ⟨hkeys', ?_, ?_⟩
          · simp only
            constructor
            · intro h0
              exact absurd h0 hk0
            · intro h0
              rw [h0] at he
              simp at he
          · intro _
            exact (serversGet_ne_none_iff _ _).2 ⟨e, he, hk⟩
      · simp only [hdef, if_false]
        obtain ⟨e, he, hk⟩ := (serversGet_ne_none_iff _ _).1 (hkey hd0)
        have he' : e ∈ config.serversDelete c.Servers name := by
          refine List.mem_filter.2 ⟨he, ?_⟩
          simp only [decide_eq_true_eq]
          rw [hk]
          exact hdef
        refine ⟨hkeys', ?_, ?_⟩
        · simp only
          constructor
          · intro h0
            exact absurd h0 hd0
          · intro h0
            rw [h0] at he'
            simp at he'
        · intro _
          exact (serversGet_ne_none_iff _ _).2 ⟨e, he', hk⟩

/-- C30. Default-server invariant: in every configuration reached from an empty one by
calls of `SetServer` and `RemoveServer` with names that are not empty, `DefaultServer`
is empty exactly when there is no server and is otherwise a key of `Servers`; so
`GetServer("")` succeeds exactly when a server is configured; and `RemoveServer` of a
name that is not a key returns an error and leaves the configuration as it is. -/
theorem default_server_invariant (c : config.Config) (h : Reachable c) :
    (c.DefaultServer = "" ↔ c.Servers = [])
      ∧ (c.DefaultServer ≠ "" →
          ∃ server, config.serversGet c.Servers c.DefaultServer = some server)
      ∧ ((∃ server, c.GetServer "" = .ok server) ↔ c.Servers ≠ [])
      ∧ (∀ name first, config.serversGet c.Servers name = none →
          c.RemoveServer name first = (c, some ("server '" ++ name ++ "' not found"))) := by
  obtain ⟨-, hiff, hkey⟩ := defaultInvariant_of_reachable c h
  have hsome : c.DefaultServer ≠ "" →
      ∃ server, config.serversGet c.Servers c.DefaultServer = some server := by
    intro h0
    cases hget : config.serversGet c.Servers c.DefaultServer with
    | none => exact absurd hget (hkey h0)
    | some server => exact ⟨server, rfl⟩
  refine ⟨hiff, hsome, ?_, ?_⟩
  · constructor
    · rintro ⟨server, hs⟩ hnil
      have h0 := hiff.2 hnil
      simp [config.Config.GetServer, h0] at hs
    · intro hne
      have h0 : c.DefaultServer ≠ "" := fun h0 => hne (hiff.1 h0)
      obtain ⟨server, hs⟩ := hsome h0
      exact ⟨server, by simp [config.Config.GetServer, h0, hs]⟩
  · intro name first hget
    simp [config.Config.RemoveServer, hget]

/-- C30 at the configuration reached by setting `nas` and `lab` and removing `nas`:
the default moves to `lab`, and `GetServer("")` returns its entry. -/
theorem default_server_invariant_witness :
    ((((emptyConfig "table").SetServer "nas" "http://nas/graphql" "k1").SetServer "lab"
        "http://lab/graphql" "k2").RemoveServer "nas" 0).1.DefaultServer = "lab"
      ∧ ∃ server,
        ((((emptyConfig "table").SetServer "nas" "http://nas/graphql" "k1").SetServer "lab"
          "http://lab/graphql" "k2").RemoveServer "nas" 0).1.GetServer "" = .ok server := by
  have hr : Reachable
      ((((emptyConfig "table").SetServer "nas" "http://nas/graphql" "k1").SetServer "lab"
        "http://lab/graphql" "k2").RemoveServer "nas" 0).1 :=
    Reachable.remove _ "nas" 0
      (Reachable.set _ "lab" _ _ (Reachable.set _ "nas" _ _ (Reachable.empty "table")
        (by decide)) (by decide)) (by decide)
  exact ⟨by decide, (default_server_invariant _ hr).2.2.1.2 (by decide)⟩

end Unraidcli
